import Mathlib

set_option maxHeartbeats 1000000

/-!
Shallow embedding of `model_organizer.py`.

The script walks a `models/` directory twice.  The first pass (the
"classifier", lines 124-169 of the source) catalogs files that already sit
inside one of the four type buckets; the second pass (the "relocator",
lines 171-227) moves freshly dropped files from the `models/` root into a
canonical position derived from the civitai registry, keeping a sqlite
catalog in sync.

Modelling choices:
* a filesystem path is its list of pathlib `parts` (`MPath`);
* the filesystem is a list of `(path, sha256-digest)` pairs; a file's
  content is identified with its digest, so `calculate_hash` becomes a
  lookup (`hashOf`);
* the sqlite database is a `Catalog` of explicit rows; the connection's
  transaction behaviour is a pair of catalogs (`Db.committed`,
  `Db.staged`): every cursor write and read acts on `staged`,
  `connection.commit()` promotes `staged`, `connection.rollback()`
  restores `committed`;
* `send_get_request` loops while the response status is 500, so the value
  it returns never has status 500; the `Registry` oracle holds, per hash
  (resp. per model id), the response that loop eventually returns, and a
  registry that answers 500 forever (the Python process would sleep and
  retry without end) is modelled by the run error `registryLoop`;
* response JSON bodies are flattened to the fields the script reads;
  a missing field is `none` and reading it raises `keyError` exactly where
  the Python subscript would raise;
* uncaught Python exceptions and the `exit()` inside
  `insert_into_database(..., enable_exception=True)` abort the run; the
  aborted state (with its uncommitted writes still only staged) is carried
  on the error so that the committed catalog at abort time is observable;
* every per-file side effect of interest (hashing, registry calls, the
  `rename`, commits and rollbacks) is recorded in an event trace.
-/

namespace ModelOrganizer

/-- A filesystem path, as the list of its `pathlib` parts. -/
abbrev MPath := List String

/-- `MODEL_PATH = Path('models')`. -/
def MODEL_PATH : MPath := ["models"]

/-- `MODEL_EXTENSIONS = ['.safetensors']`. -/
def MODEL_EXTENSIONS : List String := [".safetensors"]

/-- `MODEL_TYPE_PATHS`: the four type buckets under the models root. -/
def MODEL_TYPE_PATHS : List MPath :=
  [["models", "checkpoints"], ["models", "embeddings"],
   ["models", "loras"], ["models", "vae"]]

/-- `MODEL_NOT_FOUND_PATH = MODEL_PATH / 'loras' / 'null'`. -/
def MODEL_NOT_FOUND_PATH : MPath := ["models", "loras", "null"]

/-- `MODEL_TYPE_TO_DIRECTORY_MAP`, in source order (a python dict keeps
insertion order and a rebinding of the same key would keep the last value). -/
def MODEL_TYPE_TO_DIRECTORY_MAP : List (String × String) :=
  [("Checkpoint", "checkpoints"), ("TextualInversion", "embeddings"),
   ("LORA", "loras"), ("LoCon", "loras"), ("DoRA", "loras"), ("VAE", "vae")]

/-- `d.get(k)` for a python dict built by inserting the listed pairs in
order: the last binding of a key wins. -/
def dictGet (m : List (String × String)) (k : String) : Option String :=
  (m.reverse.find? (fun kv => kv.1 = k)).map (·.2)

/-- Line 148: `{value: key for key, value in MODEL_TYPE_TO_DIRECTORY_MAP.items()
if key not in ['LoCon', 'DoRA']}` as the ordered pair list the comprehension
inserts. -/
def reverseTypeDirectoryMap : List (String × String) :=
  (MODEL_TYPE_TO_DIRECTORY_MAP.filter
      (fun kv => !(kv.1 == "LoCon" || kv.1 == "DoRA"))).map
    (fun kv => (kv.2, kv.1))

/-- Index of the last `'.'` in a character list, if any (python `str.rfind`). -/
def rfindDot (cs : List Char) : Option Nat :=
  (cs.reverse.findIdx? (fun c => c == '.')).map (fun j => cs.length - 1 - j)

/-- `PurePath.suffix` of a file name: `name[i:]` for `i = name.rfind('.')`
when `0 < i < len(name) - 1`, else the empty string. -/
def pathSuffix (nm : String) : String :=
  let cs := nm.toList
  match rfindDot cs with
  | none => ""
  | some i => if 0 < i ∧ i < cs.length - 1 then String.mk (cs.drop i) else ""

/-- `PurePath.name`: the final path part. -/
def nameOf (p : MPath) : String := p.getLastD ""

/-- `Path(a, b, ...)`: pathlib drops empty components when joining. -/
def pyPath (segs : List String) : MPath := segs.filter (fun s => !(s == ""))

/-- The filesystem: the files below the current directory, each with the
sha256 digest of its content. -/
abbrev Fs := List (MPath × String)

/-- The paths present on disk. -/
def fsPaths (fs : Fs) : List MPath := fs.map (·.1)

/-- `calculate_hash(p)`: the digest of the file at `p`, or `none` when no
such file exists (the Python `open` would raise). -/
def hashOf (fs : Fs) (p : MPath) : Option String :=
  (fs.find? (fun e => e.1 = p)).map (·.2)

/-- `model_path.rename(new_model_path)`. -/
def moveFile (fs : Fs) (src dst : MPath) : Fs :=
  fs.map (fun e => if e.1 = src then (dst, e.2) else e)

/-- A row of the `models` table (the autoincrement id is never read by the
script and is omitted). -/
structure ModelsRow where
  path : MPath
  hash : String
  civitaiModelId : Option Nat
deriving DecidableEq, Repr

/-- A row of one of the reference tables `types` / `base_models` / `creators`. -/
structure RefRow where
  id : Nat
  name : String
deriving DecidableEq, Repr

/-- A row of the `civitai_models` table. -/
structure CivitaiRow where
  id : Nat
  typeId : Nat
  baseModelId : Nat
  creatorId : Nat
deriving DecidableEq, Repr

/-- The sqlite database contents. `next…` fields are the autoincrement
counters (sqlite starts them at 1). -/
structure Catalog where
  models : List ModelsRow
  civitaiModels : List CivitaiRow
  types : List RefRow
  baseModels : List RefRow
  creators : List RefRow
  nextCivitaiId : Nat
  nextTypeId : Nat
  nextBaseModelId : Nat
  nextCreatorId : Nat
deriving DecidableEq, Repr

/-- A freshly created `database.db`. -/
def emptyCatalog : Catalog :=
  { models := [], civitaiModels := [], types := [], baseModels := [],
    creators := [], nextCivitaiId := 1, nextTypeId := 1,
    nextBaseModelId := 1, nextCreatorId := 1 }

/-- `INSERT INTO <ref table> (name) VALUES (?)` with the
`insert_into_database` default `enable_exception = False`: an integrity
violation (a `NULL` name, or a name already present under the UNIQUE
constraint) is swallowed and the table is unchanged. -/
def insertRefRows (rows : List RefRow) (nid : Nat) (name : Option String) :
    List RefRow × Nat :=
  match name with
  | none => (rows, nid)
  | some v =>
    if rows.any (fun r => r.name = v) then (rows, nid)
    else (rows ++ [⟨nid, v⟩], nid + 1)

/-- `SELECT id FROM <ref table> WHERE name = ?`.  A `None` parameter makes
the SQL comparison `name = NULL`, which matches no row. -/
def selectRefId (rows : List RefRow) (name : Option String) : Option Nat :=
  match name with
  | none => none
  | some v => (rows.find? (fun r => r.name = v)).map (·.id)

/-- Insert-then-select on `types` (lines 152-154 / 202-204 pattern). -/
def getOrCreateType (c : Catalog) (name : Option String) : Catalog × Option Nat :=
  let rn := insertRefRows c.types c.nextTypeId name
  let c2 := { c with types := rn.1, nextTypeId := rn.2 }
  (c2, selectRefId c2.types name)

/-- Insert-then-select on `base_models`. -/
def getOrCreateBaseModel (c : Catalog) (name : Option String) : Catalog × Option Nat :=
  let rn := insertRefRows c.baseModels c.nextBaseModelId name
  let c2 := { c with baseModels := rn.1, nextBaseModelId := rn.2 }
  (c2, selectRefId c2.baseModels name)

/-- Insert-then-select on `creators`. -/
def getOrCreateCreator (c : Catalog) (name : Option String) : Catalog × Option Nat :=
  let rn := insertRefRows c.creators c.nextCreatorId name
  let c2 := { c with creators := rn.1, nextCreatorId := rn.2 }
  (c2, selectRefId c2.creators name)

/-- `INSERT INTO civitai_models ...` followed by `cursor.lastrowid`.  The
table carries no UNIQUE constraint and both ids are non-null, so the insert
always succeeds. -/
def insertCivitai (c : Catalog) (tId bId crId : Nat) : Catalog × Nat :=
  ({ c with
      civitaiModels := c.civitaiModels ++ [⟨c.nextCivitaiId, tId, bId, crId⟩],
      nextCivitaiId := c.nextCivitaiId + 1 },
   c.nextCivitaiId)

/-- Whether inserting `(path, hash, civitaiModelId)` into `models` would
violate one of its UNIQUE constraints (`path`, `hash`,
`civitai_model_id`; SQL `NULL`s never collide). -/
def modelsConflict (rows : List ModelsRow) (p : MPath) (h : String)
    (cm : Option Nat) : Bool :=
  rows.any (fun r => r.path = p ∨ r.hash = h ∨ (cm.isSome ∧ r.civitaiModelId = cm))

/-- Swallowing insert into `models` (`insert_into_database` with the default
`enable_exception = False`, line 142). -/
def insertModelsSwallow (rows : List ModelsRow) (p : MPath) (h : String)
    (cm : Option Nat) : List ModelsRow :=
  if modelsConflict rows p h cm then rows else rows ++ [⟨p, h, cm⟩]

/-- `SELECT 1 FROM models WHERE path = ?` succeeded. -/
def pathCataloged (rows : List ModelsRow) (p : MPath) : Bool :=
  rows.any (fun r => r.path = p)

/-- `SELECT 1 FROM models WHERE hash = ?` succeeded. -/
def hashCataloged (rows : List ModelsRow) (h : String) : Bool :=
  rows.any (fun r => r.hash = h)

/-- The fields the script reads from a
`/api/v1/model-versions/by-hash/` response: the status code and the values
at `['model']['type']`, `['modelId']`, `['baseModel']` (`none` when the
JSON lacks the key). -/
structure HashResp where
  status : Nat
  modelType : Option String
  modelId : Option Nat
  baseModel : Option String
deriving DecidableEq, Repr

/-- The fields the script reads from a `/api/v1/models/<id>` response:
the status code and `['creator']['username']` when the `creator` key is
present. -/
structure IdResp where
  status : Nat
  creatorUsername : Option String
deriving DecidableEq, Repr

/-- The remote registry, as the response `send_get_request` eventually
returns for each endpoint (its `while status == 500` loop only ever exits
on a non-500 response). -/
structure Registry where
  byHash : String → HashResp
  byId : Nat → IdResp

/-- Line 195-198: `model['creator']['username'] if 'creator' in model else 'null'`. -/
def creatorOf (r : IdResp) : String :=
  match r.creatorUsername with
  | some u => u
  | none => "null"

/-- Observable side effects of a run, in chronological order. -/
inductive Event where
  | hashed (p : MPath)
  | regByHash (h : String)
  | regById (i : Nat)
  | moved (src dst : MPath)
  | didCommit
  | didRollback
deriving DecidableEq, Repr

/-- Fatal run outcomes (uncaught Python exceptions, the `exit()` inside
`insert_into_database`, and the never-returning 500 retry loop). -/
inductive RunErr where
  | registryLoop
  | keyError
  | typeError
  | valueError
  | integrityError
  | integrityExit
  | fileMissing
deriving DecidableEq, Repr

/-- The sqlite connection: committed contents plus the current
transaction's view. -/
structure Db where
  committed : Catalog
  staged : Catalog
deriving DecidableEq, Repr

/-- Whole-run state: connection, disk, trace. -/
structure S where
  db : Db
  fs : Fs
  trace : List Event
deriving DecidableEq, Repr

/-- `connection.commit()`. -/
def commitS (s : S) : S :=
  { s with db := ⟨s.db.staged, s.db.staged⟩, trace := s.trace ++ [.didCommit] }

/-- `connection.rollback()`. -/
def rollbackS (s : S) : S :=
  { s with db := ⟨s.db.committed, s.db.committed⟩, trace := s.trace ++ [.didRollback] }

/-- Replace the staged catalog. -/
def setStaged (s : S) (c : Catalog) : S := { s with db := { s.db with staged := c } }

/-- The run state an `Except` result carries (on abort, the state at the
moment of the uncaught exception). -/
def stepOut (r : Except (RunErr × S) S) : S :=
  match r with
  | .ok s => s
  | .error e => e.2

/-- Append one event to the trace. -/
def addTrace (s : S) (e : Event) : S := { s with trace := s.trace ++ [e] }

/-- Classifier, lines 152-167: resolve/create the three reference rows,
create the `civitai_models` row, then a plain `cursor.execute` INSERT into
`models` (whose `IntegrityError` would be uncaught). -/
def classifierInsert (s : S) (p : MPath) (h : String) (mt : Option String)
    (b cr : String) : Except (RunErr × S) S :=
  let ct := getOrCreateType s.db.staged mt
  match ct.2 with
  | none => .error (.typeError, setStaged s ct.1)
  | some tid =>
    let cb := getOrCreateBaseModel ct.1 (some b)
    match cb.2 with
    | none => .error (.typeError, setStaged s cb.1)
    | some bid =>
      let cc := getOrCreateCreator cb.1 (some cr)
      match cc.2 with
      | none => .error (.typeError, setStaged s cc.1)
      | some cid =>
        let cv := insertCivitai cc.1 tid bid cid
        if modelsConflict cv.1.models p h (some cv.2) then
          .error (.integrityError, setStaged s cv.1)
        else
          .ok (commitS (setStaged s
            { cv.1 with models := cv.1.models ++ [⟨p, h, some cv.2⟩] }))

/-- Classifier, lines 146-167: registry lookup by hash; on 404 the type is
reverse-mapped from the first of the `parts[:3]` components, otherwise it
is read from the response body. -/
def classifierRegistry (reg : Registry) (s : S) (p : MPath) (h : String)
    (t b cr : String) : Except (RunErr × S) S :=
  let r := reg.byHash h
  if r.status = 500 then .error (.registryLoop, s)
  else
    match (if r.status = 404 then Except.ok (dictGet reverseTypeDirectoryMap t)
           else
             match r.modelType with
             | some mt => Except.ok (some mt)
             | none => Except.error RunErr.keyError :
           Except RunErr (Option String)) with
    | .error e => .error (e, s)
    | .ok mt => classifierInsert s p h mt b cr

/-- Classifier, lines 137-169: duplicate-hash skip, the
`MODEL_NOT_FOUND_PATH` special case (hash + path only, no entry), and
otherwise `parts[:3]` destructuring followed by the registry branch.
A path of fewer than three parts would not unpack (ValueError). -/
def classifierAfterHash (reg : Registry) (s : S) (p : MPath) (h : String) :
    Except (RunErr × S) S :=
  if hashCataloged s.db.staged.models h then .ok s
  else if p.dropLast = MODEL_NOT_FOUND_PATH then
    .ok (commitS (setStaged s
      { s.db.staged with
        models := insertModelsSwallow s.db.staged.models p h none }))
  else
    match p with
    | t :: b :: cr :: _ => classifierRegistry reg (addTrace s (.regByHash h)) p h t b cr
    | _ => .error (.valueError, s)

/-- Classifier pass, per file (lines 124-169).  Skips are `ok` with the
state unchanged; every branch that writes ends in `connection.commit()`. -/
def classifierStep (reg : Registry) (s : S) (p : MPath) : Except (RunErr × S) S :=
  if ¬ pathSuffix (nameOf p) ∈ MODEL_EXTENSIONS then .ok s
  else if ¬ p.take 2 ∈ MODEL_TYPE_PATHS then .ok s
  else if pathCataloged s.db.staged.models p then .ok s
  else
    match hashOf s.fs p with
    | none => .error (.fileMissing, s)
    | some h => classifierAfterHash reg (addTrace s (.hashed p)) p h

/-- Lines 219-227: conflict check against the disk, then `mkdir` + `rename`
+ `commit` (or `rollback` and continue with the next file). -/
def finishMove (s : S) (src dst : MPath) : Except (RunErr × S) S :=
  if dst ∈ fsPaths s.fs then .ok (rollbackS s)
  else
    .ok (commitS
      { s with fs := moveFile s.fs src dst, trace := s.trace ++ [.moved src dst] })

/-- Relocator, lines 202-227: stage the reference rows, the
`civitai_models` row and the `models` row (the latter with
`enable_exception = True`, so an integrity violation logs and `exit()`s),
then the conflict check and the move. -/
def relocatorInsert (s : S) (p : MPath) (h : String) (tgt : MPath)
    (mt mb mc : String) : Except (RunErr × S) S :=
  let ct := getOrCreateType s.db.staged (some mt)
  match ct.2 with
  | none => .error (.typeError, setStaged s ct.1)
  | some tid =>
    let cb := getOrCreateBaseModel ct.1 (some mb)
    match cb.2 with
    | none => .error (.typeError, setStaged s cb.1)
    | some bid =>
      let cc := getOrCreateCreator cb.1 (some mc)
      match cc.2 with
      | none => .error (.typeError, setStaged s cc.1)
      | some cid =>
        let cv := insertCivitai cc.1 tid bid cid
        if modelsConflict cv.1.models tgt h (some cv.2) then
          .error (.integrityExit, setStaged s cv.1)
        else
          finishMove
            (setStaged s { cv.1 with models := cv.1.models ++ [⟨tgt, h, some cv.2⟩] })
            p tgt

/-- Relocator, lines 188-227 (the registry knows the hash): fetch the full
model record, read type / base model / creator, build the target path from
`MODEL_TYPE_TO_DIRECTORY_MAP.get(type)` (a `None` there makes `Path(...)`
raise), then stage and move. -/
def relocatorFound (reg : Registry) (s : S) (p : MPath) (h : String)
    (r : HashResp) (mid : Nat) : Except (RunErr × S) S :=
  if (reg.byId mid).status = 500 then .error (.registryLoop, s)
  else
    match r.modelType with
    | none => .error (.keyError, s)
    | some mt =>
      match r.baseModel with
      | none => .error (.keyError, s)
      | some mb =>
        match dictGet MODEL_TYPE_TO_DIRECTORY_MAP mt with
        | none => .error (.typeError, s)
        | some d =>
          relocatorInsert s p h
            (pyPath ["models", d, mb, creatorOf (reg.byId mid), nameOf p])
            mt mb (creatorOf (reg.byId mid))

/-- Relocator, lines 184-227: registry lookup by hash; a 404 quarantines
the file into `MODEL_NOT_FOUND_PATH` with no catalog write at all, any
other (non-500) response is taken as found. -/
def relocatorRegistry (reg : Registry) (s : S) (p : MPath) (h : String) :
    Except (RunErr × S) S :=
  let r := reg.byHash h
  if r.status = 500 then .error (.registryLoop, s)
  else if r.status = 404 then
    finishMove s p (MODEL_NOT_FOUND_PATH ++ [nameOf p])
  else
    match r.modelId with
    | none => .error (.keyError, s)
    | some mid => relocatorFound reg (addTrace s (.regById mid)) p h r mid

/-- Relocator pass, per file (lines 171-227).  Note there is no
path-cataloged short circuit: the hash is always computed. -/
def relocatorStep (reg : Registry) (s : S) (p : MPath) : Except (RunErr × S) S :=
  if ¬ pathSuffix (nameOf p) ∈ MODEL_EXTENSIONS then .ok s
  else if ¬ p.dropLast = MODEL_PATH then .ok s
  else
    match hashOf s.fs p with
    | none => .error (.fileMissing, s)
    | some h =>
      if hashCataloged s.db.staged.models h then .ok (addTrace s (.hashed p))
      else relocatorRegistry reg (addTrace (addTrace s (.hashed p)) (.regByHash h)) p h

/-- Iterate a per-file step over a walk snapshot, stopping at the first
uncaught exception. -/
def runList (step : S → MPath → Except (RunErr × S) S) :
    List MPath → S → Except (RunErr × S) S
  | [], s => .ok s
  | p :: ps, s =>
    match step s p with
    | .ok s' => runList step ps s'
    | .error e => .error e

/-- One execution of the script against an existing `database.db` content
`c0` and a disk `fs0`: create the tables (pure DDL, no catalog change),
pre-seed the `'null'` creator with an immediate commit (line 122), then the
classifier pass and the relocator pass, each over a fresh
`get_all_models_path()` snapshot. -/
def runFull (reg : Registry) (c0 : Catalog) (fs0 : Fs) : Except (RunErr × S) S :=
  let rn := insertRefRows c0.creators c0.nextCreatorId (some "null")
  let c1 := { c0 with creators := rn.1, nextCreatorId := rn.2 }
  let s0 : S := { db := ⟨c1, c1⟩, fs := fs0, trace := [.didCommit] }
  match runList (classifierStep reg) (fsPaths s0.fs) s0 with
  | .error e => .error e
  | .ok s1 => runList (relocatorStep reg) (fsPaths s1.fs) s1

/-- The `moved` events of a trace. -/
def movedEvents (tr : List Event) : List Event :=
  tr.filter (fun e => match e with | .moved _ _ => true | _ => false)

/-- Whether an event mentions the path `p` (it was hashed, or it was the
source or destination of a `rename`). -/
def eventTouches (p : MPath) (e : Event) : Bool :=
  match e with
  | .hashed q => q = p
  | .moved a b => a = p ∨ b = p
  | _ => false

/-- The events of a trace that mention the path `p`. -/
def pEvents (p : MPath) (tr : List Event) : List Event :=
  tr.filter (eventTouches p)

/-- The `models` rows whose path is `p`. -/
def rowsAt (c : Catalog) (p : MPath) : List ModelsRow :=
  c.models.filter (fun r => r.path = p)

/-- The target path the relocator computes for a file of hash `h` and
name `fname` (lines 186 and 200), or `none` when the computation aborts
the run first (endless 500 retries, a missing JSON field, or an unmapped
model type). -/
def relocTarget (reg : Registry) (h : String) (fname : String) : Option MPath :=
  let r := reg.byHash h
  if r.status = 500 then none
  else if r.status = 404 then some (MODEL_NOT_FOUND_PATH ++ [fname])
  else
    match r.modelId with
    | none => none
    | some mid =>
      if (reg.byId mid).status = 500 then none
      else
        match r.modelType with
        | none => none
        | some mt =>
          match r.baseModel with
          | none => none
          | some mb =>
            match dictGet MODEL_TYPE_TO_DIRECTORY_MAP mt with
            | none => none
            | some d => some (pyPath ["models", d, mb, creatorOf (reg.byId mid), fname])

/-- The staged catalog equals the committed one: the state of the
connection between two per-file transactions. -/
def inSync (s : S) : Prop := s.db.staged = s.db.committed

/-- Every committed `models` row of `c` survives into `c2`. -/
def rowsMono (c c2 : Catalog) : Prop := ∀ r, r ∈ c.models → r ∈ c2.models

/-- No two `models` rows share a content hash. -/
def distinctHashes (c : Catalog) : Prop := (c.models.map (·.hash)).Nodup

section Helpers

theorem mem_of_hashOf {fs : Fs} {p : MPath} {h : String}
    (hh : hashOf fs p = some h) : (p, h) ∈ fs := by
  induction fs with
  | nil => simp [hashOf] at hh
  | cons e rest ih =>
    by_cases hp : e.1 = p
    · have heq : hashOf (e :: rest) p = some e.2 := by
        simp [hashOf, List.find?, hp]
      rw [heq] at hh
      cases hh
      exact List.mem_cons.mpr (Or.inl (by rw [← hp]))
    · have heq : hashOf (e :: rest) p = hashOf rest p := by
        simp [hashOf, List.find?, hp]
      rw [heq] at hh
      exact List.mem_cons_of_mem _ (ih hh)

theorem hashOf_eq_of_mem {fs : Fs} {p : MPath} {h : String}
    (hnd : (fsPaths fs).Nodup) (hmem : (p, h) ∈ fs) : hashOf fs p = some h := by
  induction fs with
  | nil => simp at hmem
  | cons e rest ih =>
    simp only [fsPaths, List.map_cons, List.nodup_cons] at hnd
    rcases List.mem_cons.mp hmem with he | hr
    · subst he
      unfold hashOf
      simp [List.find?]
    · unfold hashOf
      rcases hep : (decide (e.1 = p)) with _ | _
      · simp only [List.find?, hep]
        exact ih hnd.2 hr
      · exfalso
        simp only [decide_eq_true_eq] at hep
        exact hnd.1 (hep ▸ List.mem_map_of_mem Prod.fst hr)

theorem fsPaths_moveFile (fs : Fs) (src dst : MPath) :
    fsPaths (moveFile fs src dst) = (fsPaths fs).map (fun x => if x = src then dst else x) := by
  unfold fsPaths moveFile
  rw [List.map_map, List.map_map]
  apply List.map_congr_left
  intro e _
  by_cases he : e.1 = src <;> simp [he]

theorem mem_moveFile_of_ne {fs : Fs} {q : MPath} {h : String} (src dst : MPath)
    (hmem : (q, h) ∈ fs) (hne : q ≠ src) : (q, h) ∈ moveFile fs src dst := by
  unfold moveFile
  have := List.mem_map_of_mem (fun e => if e.1 = src then (dst, e.2) else e) hmem
  simpa [hne] using this

theorem mem_moveFile_back {fs : Fs} {q : MPath} {h : String} {src dst : MPath}
    (hmem : (q, h) ∈ moveFile fs src dst) : (q, h) ∈ fs ∨ q = dst := by
  unfold moveFile at hmem
  rcases List.mem_map.mp hmem with ⟨e, he, heq⟩
  by_cases hes : e.1 = src
  · simp only [hes, if_pos] at heq
    right
    have := congrArg Prod.fst heq
    simpa using this.symm
  · simp only [hes, if_neg, if_false] at heq
    left; exact heq ▸ he

theorem mem_fsPaths_moveFile {fs : Fs} {t : MPath} (src dst : MPath)
    (hmem : t ∈ fsPaths fs) (hne : t ≠ src) : t ∈ fsPaths (moveFile fs src dst) := by
  rw [fsPaths_moveFile]
  have := List.mem_map_of_mem (fun x => if x = src then dst else x) hmem
  simpa [hne] using this

theorem nodup_moveFile {fs : Fs} {src dst : MPath}
    (hnd : (fsPaths fs).Nodup) (hdst : ¬ dst ∈ fsPaths fs) :
    (fsPaths (moveFile fs src dst)).Nodup := by
  rw [fsPaths_moveFile]
  apply List.Nodup.map_on _ hnd
  intro x hx y hy hxy
  by_cases hxs : x = src <;> by_cases hys : y = src
  · rw [hxs, hys]
  · rw [if_pos hxs, if_neg hys] at hxy; exact absurd (hxy ▸ hy) hdst
  · rw [if_neg hxs, if_pos hys] at hxy; exact absurd (hxy ▸ hx) hdst
  · rwa [if_neg hxs, if_neg hys] at hxy

theorem mem_fsPaths_of_mem {fs : Fs} {q : MPath} {h : String}
    (hmem : (q, h) ∈ fs) : q ∈ fsPaths fs :=
  List.mem_map_of_mem Prod.fst hmem

theorem hashCataloged_mono {c c2 : Catalog} {h : String}
    (hm : rowsMono c c2) (hc : hashCataloged c.models h = true) :
    hashCataloged c2.models h = true := by
  unfold hashCataloged at *
  rcases List.any_eq_true.mp hc with ⟨r, hr, hh⟩
  exact List.any_eq_true.mpr ⟨r, hm r hr, hh⟩

theorem rowsMono_refl (c : Catalog) : rowsMono c c := fun _ hr => hr

theorem rowsMono_trans {a b c : Catalog} (h1 : rowsMono a b) (h2 : rowsMono b c) :
    rowsMono a c := fun r hr => h2 r (h1 r hr)

theorem distinctHashes_append {rows : List ModelsRow} {row : ModelsRow}
    (hdh : (rows.map (·.hash)).Nodup)
    (hfresh : hashCataloged rows row.hash = false) :
    ((rows ++ [row]).map (·.hash)).Nodup := by
  rw [List.map_append]
  apply List.Nodup.append hdh (by simp)
  intro a ha hb
  simp only [List.map_cons, List.map_nil, List.mem_singleton] at hb
  subst hb
  rcases List.mem_map.mp ha with ⟨r, hr, hrh⟩
  unfold hashCataloged at hfresh
  have hany : rows.any (fun r2 => r2.hash = row.hash) = true :=
    List.any_eq_true.mpr ⟨r, hr, by simp [hrh]⟩
  simp [hany] at hfresh

theorem movedEvents_append (tr tl : List Event) :
    movedEvents (tr ++ tl) = movedEvents tr ++ movedEvents tl := by
  unfold movedEvents; exact List.filter_append ..

theorem pEvents_append (p : MPath) (tr tl : List Event) :
    pEvents p (tr ++ tl) = pEvents p tr ++ pEvents p tl := by
  unfold pEvents; exact List.filter_append ..

theorem finishMove_spec (s : S) (src dst : MPath) :
    (dst ∈ fsPaths s.fs ∧ finishMove s src dst = .ok (rollbackS s))
    ∨ (¬ dst ∈ fsPaths s.fs ∧ finishMove s src dst =
        .ok (commitS { s with fs := moveFile s.fs src dst,
                              trace := s.trace ++ [.moved src dst] })) := by
  unfold finishMove
  by_cases hd : dst ∈ fsPaths s.fs
  · left; exact ⟨hd, by rw [if_pos hd]⟩
  · right; exact ⟨hd, by rw [if_neg hd]⟩

theorem nameOf_ne_empty {p : MPath}
    (hsuf : pathSuffix (nameOf p) ∈ MODEL_EXTENSIONS) : nameOf p ≠ "" := by
  intro he
  rw [he] at hsuf
  exact absurd hsuf (by decide)

theorem dictGet_dirmap_ne_empty {mt d : String}
    (hd : dictGet MODEL_TYPE_TO_DIRECTORY_MAP mt = some d) : d ≠ "" := by
  unfold dictGet MODEL_TYPE_TO_DIRECTORY_MAP at hd
  simp only [List.reverse_cons, List.reverse_nil, List.nil_append, List.cons_append,
    List.find?] at hd
  repeat' split at hd
  all_goals simp_all
  all_goals (subst hd; decide)

theorem movedEvents_single_hashed (p : MPath) : movedEvents [.hashed p] = [] := rfl

theorem movedEvents_single_regByHash (h : String) : movedEvents [.regByHash h] = [] := rfl

theorem movedEvents_single_regById (i : Nat) : movedEvents [.regById i] = [] := rfl

theorem movedEvents_single_commit : movedEvents [.didCommit] = [] := rfl

theorem movedEvents_single_rollback : movedEvents [.didRollback] = [] := rfl

theorem movedEvents_single_moved (a b : MPath) :
    movedEvents [.moved a b] = [.moved a b] := rfl

theorem hashCataloged_of_not_conflict {rows : List ModelsRow} {p : MPath}
    {h : String} {cm : Option Nat}
    (hc : modelsConflict rows p h cm = false) : hashCataloged rows h = false := by
  unfold modelsConflict at hc
  unfold hashCataloged
  rcases hall : rows.any (fun r => r.hash = h) with _ | _
  · rfl
  · exfalso
    rcases List.any_eq_true.mp hall with ⟨r, hr, hh⟩
    have h3 : rows.any
        (fun r => r.path = p ∨ r.hash = h ∨ (cm.isSome ∧ r.civitaiModelId = cm)) = true := by
      refine List.any_eq_true.mpr ⟨r, hr, ?_⟩
      simp only [decide_eq_true_eq] at hh ⊢
      exact Or.inr (Or.inl hh)
    rw [hc] at h3
    exact Bool.false_ne_true h3

end Helpers

section StepSpecs

/-- The trace grew only by events that concern the single file `p` and
record no move. -/
def traceExt (p : MPath) (s s₂ : S) : Prop :=
  ∃ tail, s₂.trace = s.trace ++ tail ∧ movedEvents tail = []
    ∧ ∀ q, q ≠ p → pEvents q tail = []

/-- The trace grew only by events that concern `p` and its move target
`t`, records exactly the single move `p → t`, and the move is immediately
followed by the commit with no commit before it. -/
def traceExtMove (p t : MPath) (s s₂ : S) : Prop :=
  ∃ pre, s₂.trace = s.trace ++ pre ++ [.moved p t, .didCommit]
    ∧ movedEvents pre = [] ∧ Event.didCommit ∉ pre
    ∧ ∀ q, q ≠ p → q ≠ t → pEvents q (pre ++ [.moved p t, .didCommit]) = []

theorem traceExt_of_eq {p : MPath} {s s₂ : S} (h : s₂.trace = s.trace) :
    traceExt p s s₂ :=
  ⟨[], by simp [h], rfl, fun _ _ => rfl⟩

theorem traceExt_trans {p : MPath} {s1 s2 s3 : S}
    (a : traceExt p s1 s2) (b : traceExt p s2 s3) : traceExt p s1 s3 := by
  obtain ⟨ta, hta, hma, hqa⟩ := a
  obtain ⟨tb, htb, hmb, hqb⟩ := b
  refine ⟨ta ++ tb, ?_, ?_, ?_⟩
  · rw [htb, hta, List.append_assoc]
  · rw [movedEvents_append, hma, hmb]; rfl
  · intro q hq; rw [pEvents_append, hqa q hq, hqb q hq]; rfl

theorem traceExtMove_pre {p t : MPath} {s s₃ : S} (e : Event)
    (he : ¬ e = Event.didCommit)
    (hm : movedEvents [e] = [])
    (hq : ∀ q, q ≠ p → q ≠ t → pEvents q [e] = [])
    (hext : traceExtMove p t (addTrace s e) s₃) : traceExtMove p t s s₃ := by
  obtain ⟨pre, htr, hmv, hnc, hev⟩ := hext
  refine ⟨e :: pre, ?_, ?_, ?_, ?_⟩
  · rw [htr]
    simp [addTrace]
  · have : (e :: pre) = [e] ++ pre := rfl
    rw [this, movedEvents_append, hm, hmv]
    rfl
  · intro hin
    rcases List.mem_cons.mp hin with hin | hin
    · exact he hin.symm
    · exact hnc hin
  · intro q hqp hqt
    have : ((e :: pre) ++ [Event.moved p t, Event.didCommit])
        = [e] ++ (pre ++ [Event.moved p t, Event.didCommit]) := by simp
    rw [this, pEvents_append, hq q hqp hqt, hev q hqp hqt]
    rfl

theorem traceExt_tail_hashed {p : MPath} {s s₂ : S}
    (h : s₂.trace = s.trace ++ [.hashed p]) : traceExt p s s₂ := by
  refine ⟨[.hashed p], h, rfl, fun q hq => ?_⟩
  have hne : ¬ p = q := fun hh => hq hh.symm
  simp [pEvents, List.filter, eventTouches, hne]

theorem traceExt_tail_regByHash {p : MPath} {hsh : String} {s s₂ : S}
    (h : s₂.trace = s.trace ++ [.regByHash hsh]) : traceExt p s s₂ :=
  ⟨[.regByHash hsh], h, rfl, fun _ _ => rfl⟩

theorem traceExt_tail_regById {p : MPath} {i : Nat} {s s₂ : S}
    (h : s₂.trace = s.trace ++ [.regById i]) : traceExt p s s₂ :=
  ⟨[.regById i], h, rfl, fun _ _ => rfl⟩

theorem traceExt_tail_commit {p : MPath} {s s₂ : S}
    (h : s₂.trace = s.trace ++ [.didCommit]) : traceExt p s s₂ :=
  ⟨[.didCommit], h, rfl, fun _ _ => rfl⟩

theorem traceExt_tail_rollback {p : MPath} {s s₂ : S}
    (h : s₂.trace = s.trace ++ [.didRollback]) : traceExt p s s₂ :=
  ⟨[.didRollback], h, rfl, fun _ _ => rfl⟩

theorem traceExtMove_tail {p t : MPath} {s s₂ : S}
    (h : s₂.trace = s.trace ++ [.moved p t, .didCommit]) : traceExtMove p t s s₂ := by
  refine ⟨[], by simpa using h, rfl, by simp, fun q hq hqt => ?_⟩
  have hne : ¬ (p = q ∨ t = q) := by
    rintro (hh | hh)
    · exact hq hh.symm
    · exact hqt hh.symm
  simp [pEvents, List.filter, eventTouches, hne]

theorem modelsConflict_none_false {rows : List ModelsRow} {p : MPath} {h : String}
    (hp : pathCataloged rows p = false) (hh : hashCataloged rows h = false) :
    modelsConflict rows p h none = false := by
  unfold modelsConflict
  rw [List.any_eq_false]
  intro r hr
  unfold pathCataloged at hp
  unfold hashCataloged at hh
  rw [List.any_eq_false] at hp hh
  have h1 := hp r hr
  have h2 := hh r hr
  simp only [decide_eq_true_eq] at h1 h2 ⊢
  rintro (hc | hc | hc)
  · exact h1 hc
  · exact h2 hc
  · simp at hc

/-- Outcomes of the classifier's insert tail (lines 152-167): an abort
that leaves disk, committed catalog and trace untouched, or a commit that
appends exactly the one new `models` row linked to a fresh catalog entry. -/
theorem classifierInsert_spec (s : S) (p : MPath) (h : String)
    (mt : Option String) (b cr : String) :
    (∃ e s₂, classifierInsert s p h mt b cr = .error (e, s₂)
        ∧ s₂.fs = s.fs ∧ s₂.db.committed = s.db.committed ∧ s₂.trace = s.trace)
    ∨ (∃ s' cm, classifierInsert s p h mt b cr = .ok s'
        ∧ s'.fs = s.fs ∧ s'.db.staged = s'.db.committed
        ∧ s'.db.committed.models = s.db.staged.models ++ [⟨p, h, some cm⟩]
        ∧ hashCataloged s.db.staged.models h = false
        ∧ s'.trace = s.trace ++ [.didCommit]) := by
  simp only [classifierInsert]
  cases hct : (getOrCreateType s.db.staged mt).2 with
  | none =>
    exact Or.inl ⟨.typeError, setStaged s (getOrCreateType s.db.staged mt).1,
      rfl, rfl, rfl, rfl⟩
  | some tid =>
    cases hcb : (getOrCreateBaseModel (getOrCreateType s.db.staged mt).1 (some b)).2 with
    | none =>
      exact Or.inl ⟨.typeError, _, rfl, rfl, rfl, rfl⟩
    | some bid =>
      cases hcc : (getOrCreateCreator
          (getOrCreateBaseModel (getOrCreateType s.db.staged mt).1 (some b)).1 (some cr)).2 with
      | none =>
        exact Or.inl ⟨.typeError, _, rfl, rfl, rfl, rfl⟩
      | some cid =>
        have hmodels : (insertCivitai
            (getOrCreateCreator
              (getOrCreateBaseModel (getOrCreateType s.db.staged mt).1 (some b)).1
              (some cr)).1 tid bid cid).1.models = s.db.staged.models := by
          simp [insertCivitai, getOrCreateCreator, getOrCreateBaseModel, getOrCreateType]
        by_cases hconf : modelsConflict
            (insertCivitai
              (getOrCreateCreator
                (getOrCreateBaseModel (getOrCreateType s.db.staged mt).1 (some b)).1
                (some cr)).1 tid bid cid).1.models p h
            (some (insertCivitai
              (getOrCreateCreator
                (getOrCreateBaseModel (getOrCreateType s.db.staged mt).1 (some b)).1
                (some cr)).1 tid bid cid).2) = true
        all_goals dsimp only
        · rw [if_pos hconf]
          exact Or.inl ⟨.integrityError, _, rfl, rfl, rfl, rfl⟩
        · rw [if_neg hconf]
          refine Or.inr ⟨_, (insertCivitai
              (getOrCreateCreator
                (getOrCreateBaseModel (getOrCreateType s.db.staged mt).1 (some b)).1
                (some cr)).1 tid bid cid).2, rfl, rfl, rfl, ?_, ?_, rfl⟩
          · simp [commitS, setStaged, hmodels]
          · rw [← hmodels]
            exact hashCataloged_of_not_conflict (Bool.not_eq_true _ ▸ hconf)

/-- Outcomes of the relocator's staging-and-move tail (lines 202-227):
an abort that leaves everything observable untouched, a rollback when a
file already sits at the target, or a move plus a commit that appends
exactly the one new `models` row at the target path. -/
theorem relocatorInsert_spec (s : S) (p : MPath) (h : String) (tgt : MPath)
    (mt mb mc : String) :
    (∃ e s₂, relocatorInsert s p h tgt mt mb mc = .error (e, s₂)
        ∧ s₂.fs = s.fs ∧ s₂.db.committed = s.db.committed ∧ s₂.trace = s.trace)
    ∨ (tgt ∈ fsPaths s.fs ∧ ∃ s', relocatorInsert s p h tgt mt mb mc = .ok s'
        ∧ s'.fs = s.fs ∧ s'.db = ⟨s.db.committed, s.db.committed⟩
        ∧ s'.trace = s.trace ++ [.didRollback])
    ∨ (¬ tgt ∈ fsPaths s.fs ∧ ∃ s' cm, relocatorInsert s p h tgt mt mb mc = .ok s'
        ∧ s'.fs = moveFile s.fs p tgt
        ∧ s'.db.staged = s'.db.committed
        ∧ s'.db.committed.models = s.db.staged.models ++ [⟨tgt, h, some cm⟩]
        ∧ hashCataloged s.db.staged.models h = false
        ∧ s'.trace = s.trace ++ [.moved p tgt, .didCommit]) := by
  simp only [relocatorInsert]
  cases hct : (getOrCreateType s.db.staged (some mt)).2 with
  | none =>
    exact Or.inl ⟨.typeError, _, rfl, rfl, rfl, rfl⟩
  | some tid =>
    cases hcb : (getOrCreateBaseModel (getOrCreateType s.db.staged (some mt)).1 (some mb)).2 with
    | none =>
      exact Or.inl ⟨.typeError, _, rfl, rfl, rfl, rfl⟩
    | some bid =>
      cases hcc : (getOrCreateCreator
          (getOrCreateBaseModel (getOrCreateType s.db.staged (some mt)).1 (some mb)).1
          (some mc)).2 with
      | none =>
        exact Or.inl ⟨.typeError, _, rfl, rfl, rfl, rfl⟩
      | some cid =>
        dsimp only
        generalize hc3 : insertCivitai
            (getOrCreateCreator
              (getOrCreateBaseModel (getOrCreateType s.db.staged (some mt)).1 (some mb)).1
              (some mc)).1 tid bid cid = c3pair
        have hmodels : c3pair.1.models = s.db.staged.models := by
          rw [← hc3]
          simp [insertCivitai, getOrCreateCreator, getOrCreateBaseModel, getOrCreateType]
        by_cases hconf : modelsConflict c3pair.1.models tgt h (some c3pair.2) = true
        · rw [if_pos hconf]
          exact Or.inl ⟨.integrityExit, _, rfl, rfl, rfl, rfl⟩
        · rw [if_neg hconf]
          generalize hc4 : ({ c3pair.1 with
              models := c3pair.1.models ++ [⟨tgt, h, some c3pair.2⟩] } : Catalog) = c4
          have hc4m : c4.models = s.db.staged.models ++ [⟨tgt, h, some c3pair.2⟩] := by
            rw [← hc4, ← hmodels]
          rcases finishMove_spec (setStaged s c4) p tgt with ⟨hin, heq⟩ | ⟨hnin, heq⟩
          · rw [heq]
            refine Or.inr (Or.inl ⟨hin, _, rfl, rfl, rfl, rfl⟩)
          · rw [heq]
            refine Or.inr (Or.inr ⟨hnin, _, c3pair.2, rfl, rfl, rfl, ?_, ?_, ?_⟩)
            · simp [commitS, setStaged, hc4m]
            · rw [← hmodels]
              exact hashCataloged_of_not_conflict (Bool.not_eq_true _ ▸ hconf)
            · simp [commitS, setStaged]

/-- Outcomes of the classifier's registry branch (lines 146-167). -/
theorem classifierRegistry_spec (reg : Registry) (s : S) (p : MPath) (h : String)
    (t b cr : String) :
    (∃ e s₂, classifierRegistry reg s p h t b cr = .error (e, s₂)
        ∧ s₂.fs = s.fs ∧ s₂.db.committed = s.db.committed ∧ s₂.trace = s.trace)
    ∨ (∃ s' cm, classifierRegistry reg s p h t b cr = .ok s'
        ∧ s'.fs = s.fs ∧ s'.db.staged = s'.db.committed
        ∧ s'.db.committed.models = s.db.staged.models ++ [⟨p, h, some cm⟩]
        ∧ hashCataloged s.db.staged.models h = false
        ∧ s'.trace = s.trace ++ [.didCommit]) := by
  simp only [classifierRegistry]
  by_cases h500 : (reg.byHash h).status = 500
  · rw [if_pos h500]
    exact Or.inl ⟨_, _, rfl, rfl, rfl, rfl⟩
  · rw [if_neg h500]
    cases hmt : (if (reg.byHash h).status = 404
        then Except.ok (dictGet reverseTypeDirectoryMap t)
        else
          match (reg.byHash h).modelType with
          | some mt => Except.ok (some mt)
          | none => Except.error RunErr.keyError :
        Except RunErr (Option String)) with
    | error e =>
      exact Or.inl ⟨e, s, rfl, rfl, rfl, rfl⟩
    | ok mt =>
      exact classifierInsert_spec s p h mt b cr

/-- Outcomes of the relocator's "registry knows the hash" branch
(lines 188-227). -/
theorem relocatorFound_spec (reg : Registry) (s : S) (p : MPath) (h : String)
    (r : HashResp) (mid : Nat) :
    (∃ e s₂, relocatorFound reg s p h r mid = .error (e, s₂)
        ∧ s₂.fs = s.fs ∧ s₂.db.committed = s.db.committed ∧ s₂.trace = s.trace)
    ∨ (∃ mt mb d, r.modelType = some mt ∧ r.baseModel = some mb
        ∧ dictGet MODEL_TYPE_TO_DIRECTORY_MAP mt = some d
        ∧ ¬ (reg.byId mid).status = 500
        ∧ ((pyPath ["models", d, mb, creatorOf (reg.byId mid), nameOf p] ∈ fsPaths s.fs
              ∧ ∃ s', relocatorFound reg s p h r mid = .ok s'
                ∧ s'.fs = s.fs ∧ s'.db = ⟨s.db.committed, s.db.committed⟩
                ∧ s'.trace = s.trace ++ [.didRollback])
           ∨ (¬ pyPath ["models", d, mb, creatorOf (reg.byId mid), nameOf p] ∈ fsPaths s.fs
              ∧ ∃ s' cm, relocatorFound reg s p h r mid = .ok s'
                ∧ s'.fs = moveFile s.fs p
                    (pyPath ["models", d, mb, creatorOf (reg.byId mid), nameOf p])
                ∧ s'.db.staged = s'.db.committed
                ∧ s'.db.committed.models = s.db.staged.models
                    ++ [⟨pyPath ["models", d, mb, creatorOf (reg.byId mid), nameOf p], h, some cm⟩]
                ∧ hashCataloged s.db.staged.models h = false
                ∧ s'.trace = s.trace
                    ++ [.moved p (pyPath ["models", d, mb, creatorOf (reg.byId mid), nameOf p]),
                        .didCommit]))) := by
  simp only [relocatorFound]
  by_cases h500 : (reg.byId mid).status = 500
  · rw [if_pos h500]
    exact Or.inl ⟨_, _, rfl, rfl, rfl, rfl⟩
  · rw [if_neg h500]
    cases hmt : r.modelType with
    | none => exact Or.inl ⟨_, _, rfl, rfl, rfl, rfl⟩
    | some mt =>
      dsimp only
      cases hmb : r.baseModel with
      | none => exact Or.inl ⟨_, _, rfl, rfl, rfl, rfl⟩
      | some mb =>
        dsimp only
        cases hd : dictGet MODEL_TYPE_TO_DIRECTORY_MAP mt with
        | none => exact Or.inl ⟨_, _, rfl, rfl, rfl, rfl⟩
        | some d =>
          dsimp only
          rcases relocatorInsert_spec s p h
              (pyPath ["models", d, mb, creatorOf (reg.byId mid), nameOf p])
              mt mb (creatorOf (reg.byId mid)) with
            ⟨e, s₂, heq, hfs, hcm, htr⟩ | ⟨hin, s', heq, hfs, hdb, htr⟩
            | ⟨hnin, s', cm, heq, hfs, hsy, hm, hfr, htr⟩
          · exact Or.inl ⟨e, s₂, heq, hfs, hcm, htr⟩
          · exact Or.inr ⟨mt, mb, d, rfl, rfl, hd, h500,
              Or.inl ⟨hin, s', heq, hfs, hdb, htr⟩⟩
          · exact Or.inr ⟨mt, mb, d, rfl, rfl, hd, h500,
              Or.inr ⟨hnin, s', cm, heq, hfs, hsy, hm, hfr, htr⟩⟩

/-- Outcomes of the relocator's registry branch (lines 184-227), phrased
through `relocTarget`: an abort, or a computed target that either already
exists on disk (rollback) or receives the file (move + commit). -/
theorem relocatorRegistry_spec (reg : Registry) (s : S) (p : MPath) (h : String) :
    (∃ e s₂, relocatorRegistry reg s p h = .error (e, s₂)
        ∧ s₂.fs = s.fs ∧ s₂.db.committed = s.db.committed ∧ traceExt p s s₂)
    ∨ (∃ t, relocTarget reg h (nameOf p) = some t
        ∧ ((t ∈ fsPaths s.fs
              ∧ ∃ s', relocatorRegistry reg s p h = .ok s'
                ∧ s'.fs = s.fs ∧ s'.db = ⟨s.db.committed, s.db.committed⟩
                ∧ traceExt p s s')
           ∨ (¬ t ∈ fsPaths s.fs
              ∧ ∃ s', relocatorRegistry reg s p h = .ok s'
                ∧ s'.fs = moveFile s.fs p t
                ∧ s'.db.staged = s'.db.committed
                ∧ (s'.db.committed.models = s.db.staged.models
                   ∨ ∃ cm, s'.db.committed.models = s.db.staged.models ++ [⟨t, h, some cm⟩])
                ∧ traceExtMove p t s s'))) := by
  simp only [relocatorRegistry]
  by_cases h500 : (reg.byHash h).status = 500
  · rw [if_pos h500]
    exact Or.inl ⟨_, _, rfl, rfl, rfl, traceExt_of_eq rfl⟩
  · rw [if_neg h500]
    by_cases h404 : (reg.byHash h).status = 404
    · rw [if_pos h404]
      have htgt : relocTarget reg h (nameOf p) = some (MODEL_NOT_FOUND_PATH ++ [nameOf p]) := by
        unfold relocTarget
        rw [if_neg h500, if_pos h404]
      rcases finishMove_spec s p (MODEL_NOT_FOUND_PATH ++ [nameOf p]) with ⟨hin, heq⟩ | ⟨hnin, heq⟩
      · rw [heq]
        exact Or.inr ⟨_, htgt, Or.inl ⟨hin, _, rfl, rfl, rfl, traceExt_tail_rollback rfl⟩⟩
      · rw [heq]
        refine Or.inr ⟨_, htgt, Or.inr ⟨hnin, _, rfl, rfl, rfl, Or.inl rfl, traceExtMove_tail ?_⟩⟩
        simp [commitS]
    · rw [if_neg h404]
      cases hmid : (reg.byHash h).modelId with
      | none => exact Or.inl ⟨_, _, rfl, rfl, rfl, traceExt_of_eq rfl⟩
      | some mid =>
        dsimp only
        rcases relocatorFound_spec reg (addTrace s (.regById mid)) p h (reg.byHash h) mid with
          ⟨e, s₂, heq, hfs, hcm, htr⟩ |
          ⟨mt, mb, d, hmt, hmb, hd, hbid,
            ⟨hin, s', heq, hfs, hdb, htr⟩ | ⟨hnin, s', cm, heq, hfs, hsy, hm, hfr, htr⟩⟩
        · exact Or.inl ⟨e, s₂, heq, hfs, hcm,
            traceExt_trans (traceExt_tail_regById rfl) (traceExt_of_eq htr)⟩
        · have htgt : relocTarget reg h (nameOf p) =
              some (pyPath ["models", d, mb, creatorOf (reg.byId mid), nameOf p]) := by
            unfold relocTarget
            rw [if_neg h500, if_neg h404, hmid]
            dsimp only
            rw [if_neg hbid, hmt]
            dsimp only
            rw [hmb]
            dsimp only
            rw [hd]
          exact Or.inr ⟨_, htgt, Or.inl ⟨hin, s', heq, hfs, hdb,
            traceExt_trans (traceExt_tail_regById rfl) (traceExt_tail_rollback htr)⟩⟩
        · have htgt : relocTarget reg h (nameOf p) =
              some (pyPath ["models", d, mb, creatorOf (reg.byId mid), nameOf p]) := by
            unfold relocTarget
            rw [if_neg h500, if_neg h404, hmid]
            dsimp only
            rw [if_neg hbid, hmt]
            dsimp only
            rw [hmb]
            dsimp only
            rw [hd]
          refine Or.inr ⟨_, htgt, Or.inr ⟨hnin, s', heq, hfs, hsy, Or.inr ⟨cm, hm⟩, ?_⟩⟩
          exact traceExtMove_pre (.regById mid) (by simp) rfl (fun _ _ _ => rfl)
            (traceExtMove_tail htr)

/-- Outcomes of the classifier once the hash is known (lines 137-169). -/
theorem classifierAfterHash_spec (reg : Registry) (s : S) (p : MPath) (h : String) :
    (hashCataloged s.db.staged.models h = true ∧ classifierAfterHash reg s p h = .ok s)
    ∨ (hashCataloged s.db.staged.models h = false
        ∧ ((∃ e s₂, classifierAfterHash reg s p h = .error (e, s₂)
              ∧ s₂.fs = s.fs ∧ s₂.db.committed = s.db.committed ∧ traceExt p s s₂)
           ∨ (∃ s' cm, classifierAfterHash reg s p h = .ok s'
              ∧ s'.fs = s.fs ∧ s'.db.staged = s'.db.committed
              ∧ (s'.db.committed.models = s.db.staged.models
                 ∨ s'.db.committed.models = s.db.staged.models ++ [⟨p, h, cm⟩])
              ∧ traceExt p s s'))) := by
  simp only [classifierAfterHash]
  by_cases hh : hashCataloged s.db.staged.models h = true
  · rw [if_pos hh]
    exact Or.inl ⟨hh, rfl⟩
  · rw [if_neg hh]
    refine Or.inr ⟨Bool.not_eq_true _ ▸ hh, ?_⟩
    by_cases hnull : p.dropLast = MODEL_NOT_FOUND_PATH
    · rw [if_pos hnull]
      refine Or.inr ⟨_, none, rfl, rfl, rfl, ?_, traceExt_tail_commit rfl⟩
      unfold insertModelsSwallow
      by_cases hconf : modelsConflict s.db.staged.models p h none = true
      · rw [if_pos hconf]
        exact Or.inl (by simp [commitS, setStaged])
      · rw [if_neg hconf]
        exact Or.inr (by simp [commitS, setStaged])
    · rw [if_neg hnull]
      cases p with
      | nil => exact Or.inl ⟨_, _, rfl, rfl, rfl, traceExt_of_eq rfl⟩
      | cons t prest =>
        cases prest with
        | nil => exact Or.inl ⟨_, _, rfl, rfl, rfl, traceExt_of_eq rfl⟩
        | cons b prest2 =>
          cases prest2 with
          | nil => exact Or.inl ⟨_, _, rfl, rfl, rfl, traceExt_of_eq rfl⟩
          | cons cr prest3 =>
            rcases classifierRegistry_spec reg
                (addTrace s (.regByHash h)) (t :: b :: cr :: prest3) h t b cr with
              ⟨e, s₂, heq, hfs, hcm, htr⟩ | ⟨s', cm, heq, hfs, hsy, hm, hfr, htr⟩
            · exact Or.inl ⟨e, s₂, heq, hfs, hcm,
                traceExt_trans (traceExt_tail_regByHash rfl) (traceExt_of_eq htr)⟩
            · exact Or.inr ⟨s', some cm, heq, hfs, hsy, Or.inr hm,
                traceExt_trans (traceExt_tail_regByHash rfl) (traceExt_tail_commit htr)⟩

/-- Complete per-file characterisation of the classifier pass
(lines 124-169). -/
theorem classifierStep_spec (reg : Registry) (s : S) (p : MPath) :
    ((¬ pathSuffix (nameOf p) ∈ MODEL_EXTENSIONS ∨ ¬ p.take 2 ∈ MODEL_TYPE_PATHS
        ∨ pathCataloged s.db.staged.models p = true)
      ∧ classifierStep reg s p = .ok s)
    ∨ (pathSuffix (nameOf p) ∈ MODEL_EXTENSIONS ∧ p.take 2 ∈ MODEL_TYPE_PATHS
        ∧ pathCataloged s.db.staged.models p = false
        ∧ ((hashOf s.fs p = none ∧ classifierStep reg s p = .error (.fileMissing, s))
           ∨ (∃ h, hashOf s.fs p = some h
               ∧ ((hashCataloged s.db.staged.models h = true
                    ∧ classifierStep reg s p = .ok (addTrace s (.hashed p)))
                  ∨ (hashCataloged s.db.staged.models h = false
                     ∧ ((∃ e s₂, classifierStep reg s p = .error (e, s₂)
                          ∧ s₂.fs = s.fs ∧ s₂.db.committed = s.db.committed
                          ∧ traceExt p s s₂)
                        ∨ (∃ s' cm, classifierStep reg s p = .ok s'
                            ∧ s'.fs = s.fs ∧ s'.db.staged = s'.db.committed
                            ∧ (s'.db.committed.models = s.db.staged.models
                               ∨ s'.db.committed.models = s.db.staged.models ++ [⟨p, h, cm⟩])
                            ∧ traceExt p s s'))))))) := by
  simp only [classifierStep]
  by_cases h1 : pathSuffix (nameOf p) ∈ MODEL_EXTENSIONS
  · rw [if_neg (not_not_intro h1)]
    by_cases h2 : p.take 2 ∈ MODEL_TYPE_PATHS
    · rw [if_neg (not_not_intro h2)]
      by_cases h3 : pathCataloged s.db.staged.models p = true
      · rw [if_pos h3]
        exact Or.inl ⟨Or.inr (Or.inr h3), rfl⟩
      · rw [if_neg h3]
        refine Or.inr ⟨h1, h2, Bool.not_eq_true _ ▸ h3, ?_⟩
        cases hh : hashOf s.fs p with
        | none => exact Or.inl ⟨rfl, rfl⟩
        | some h =>
          refine Or.inr ⟨h, rfl, ?_⟩
          rcases classifierAfterHash_spec reg (addTrace s (.hashed p)) p h with
            ⟨hcat, heq⟩ | ⟨hfr, ⟨e, s₂, heq, hfs, hcm, htr⟩ | ⟨s', cm, heq, hfs, hsy, hm, htr⟩⟩
          · exact Or.inl ⟨hcat, heq⟩
          · exact Or.inr ⟨hfr, Or.inl ⟨e, s₂, heq, hfs, hcm,
              traceExt_trans (traceExt_tail_hashed rfl) htr⟩⟩
          · exact Or.inr ⟨hfr, Or.inr ⟨s', cm, heq, hfs, hsy, hm,
              traceExt_trans (traceExt_tail_hashed rfl) htr⟩⟩
    · rw [if_pos h2]
      exact Or.inl ⟨Or.inr (Or.inl h2), rfl⟩
  · rw [if_pos h1]
    exact Or.inl ⟨Or.inl h1, rfl⟩

/-- Complete per-file characterisation of the relocator pass
(lines 171-227). -/
theorem relocatorStep_spec (reg : Registry) (s : S) (p : MPath) :
    ((¬ pathSuffix (nameOf p) ∈ MODEL_EXTENSIONS ∨ ¬ p.dropLast = MODEL_PATH)
      ∧ relocatorStep reg s p = .ok s)
    ∨ (pathSuffix (nameOf p) ∈ MODEL_EXTENSIONS ∧ p.dropLast = MODEL_PATH
        ∧ ((hashOf s.fs p = none ∧ relocatorStep reg s p = .error (.fileMissing, s))
           ∨ (∃ h, hashOf s.fs p = some h
               ∧ ((hashCataloged s.db.staged.models h = true
                    ∧ relocatorStep reg s p = .ok (addTrace s (.hashed p)))
                  ∨ (hashCataloged s.db.staged.models h = false
                     ∧ ((∃ e s₂, relocatorStep reg s p = .error (e, s₂)
                          ∧ s₂.fs = s.fs ∧ s₂.db.committed = s.db.committed
                          ∧ traceExt p s s₂)
                        ∨ (∃ t, relocTarget reg h (nameOf p) = some t
                            ∧ ((t ∈ fsPaths s.fs
                                 ∧ ∃ s', relocatorStep reg s p = .ok s'
                                   ∧ s'.fs = s.fs
                                   ∧ s'.db = ⟨s.db.committed, s.db.committed⟩
                                   ∧ traceExt p s s')
                               ∨ (¬ t ∈ fsPaths s.fs
                                 ∧ ∃ s', relocatorStep reg s p = .ok s'
                                   ∧ s'.fs = moveFile s.fs p t
                                   ∧ s'.db.staged = s'.db.committed
                                   ∧ (s'.db.committed.models = s.db.staged.models
                                      ∨ ∃ cm, s'.db.committed.models
                                          = s.db.staged.models ++ [⟨t, h, some cm⟩])
                                   ∧ traceExtMove p t s s'))))))))) := by
  simp only [relocatorStep]
  by_cases h1 : pathSuffix (nameOf p) ∈ MODEL_EXTENSIONS
  · rw [if_neg (not_not_intro h1)]
    by_cases h2 : p.dropLast = MODEL_PATH
    · rw [if_neg (not_not_intro h2)]
      refine Or.inr ⟨h1, h2, ?_⟩
      cases hh : hashOf s.fs p with
      | none => exact Or.inl ⟨rfl, rfl⟩
      | some h =>
        dsimp only
        refine Or.inr ⟨h, rfl, ?_⟩
        by_cases hcat : hashCataloged s.db.staged.models h = true
        · rw [if_pos hcat]
          exact Or.inl ⟨hcat, rfl⟩
        · rw [if_neg hcat]
          refine Or.inr ⟨Bool.not_eq_true _ ▸ hcat, ?_⟩
          rcases relocatorRegistry_spec reg
              (addTrace (addTrace s (.hashed p)) (.regByHash h)) p h with
            ⟨e, s₂, heq, hfs, hcm, htr⟩ |
            ⟨t, htgt, ⟨hin, s', heq, hfs, hdb, htr⟩ | ⟨hnin, s', heq, hfs, hsy, hm, htr⟩⟩
          · exact Or.inl ⟨e, s₂, heq, hfs, hcm,
              traceExt_trans (traceExt_trans (traceExt_tail_hashed rfl)
                (traceExt_tail_regByHash rfl)) htr⟩
          · exact Or.inr ⟨t, htgt, Or.inl ⟨hin, s', heq, hfs, hdb,
              traceExt_trans (traceExt_trans (traceExt_tail_hashed rfl)
                (traceExt_tail_regByHash rfl)) htr⟩⟩
          · refine Or.inr ⟨t, htgt, Or.inr ⟨hnin, s', heq, hfs, hsy, hm, ?_⟩⟩
            refine traceExtMove_pre (.hashed p) (by simp) rfl ?_
              (traceExtMove_pre (.regByHash h) (by simp) rfl (fun _ _ _ => rfl) htr)
            intro q hqp hqt
            have hne : ¬ p = q := fun hh => hqp hh.symm
            simp [pEvents, List.filter, eventTouches, hne]
    · rw [if_pos h2]
      exact Or.inl ⟨Or.inr h2, rfl⟩
  · rw [if_pos h1]
    exact Or.inl ⟨Or.inl h1, rfl⟩

theorem traceExt_movedEvents {p : MPath} {s s₂ : S} (h : traceExt p s s₂) :
    movedEvents s₂.trace = movedEvents s.trace := by
  obtain ⟨tail, htr, hmv, _⟩ := h
  rw [htr, movedEvents_append, hmv, List.append_nil]

theorem traceExtMove_movedEvents {p t : MPath} {s s₂ : S} (h : traceExtMove p t s s₂) :
    movedEvents s₂.trace = movedEvents s.trace ++ [.moved p t] := by
  obtain ⟨pre, htr, hmv, _, _⟩ := h
  rw [htr, movedEvents_append, movedEvents_append, hmv]
  simp only [List.append_nil]
  rfl

theorem traceExt_pEvents {p : MPath} {s s₂ : S} {q : MPath}
    (h : traceExt p s s₂) (hq : q ≠ p) :
    pEvents q s₂.trace = pEvents q s.trace := by
  obtain ⟨tail, htr, _, hqe⟩ := h
  rw [htr, pEvents_append, hqe q hq, List.append_nil]

theorem traceExtMove_pEvents {p t : MPath} {s s₂ : S} {q : MPath}
    (h : traceExtMove p t s s₂) (hqp : q ≠ p) (hqt : q ≠ t) :
    pEvents q s₂.trace = pEvents q s.trace := by
  obtain ⟨pre, htr, _, _, hqe⟩ := h
  rw [htr, List.append_assoc, pEvents_append, hqe q hqp hqt, List.append_nil]

/-- Transport an invariant `P` along a successful pass. -/
theorem runList_ok_inv (step : S → MPath → Except (RunErr × S) S) (P : S → Prop)
    (hok : ∀ s p s', P s → step s p = .ok s' → P s') :
    ∀ (ps : List MPath) (s s' : S), P s → runList step ps s = .ok s' → P s' := by
  intro ps
  induction ps with
  | nil =>
    intro s s' hP hrun
    simp only [runList] at hrun
    cases hrun
    exact hP
  | cons p ps ih =>
    intro s s' hP hrun
    simp only [runList] at hrun
    cases hstep : step s p with
    | ok s1 =>
      rw [hstep] at hrun
      exact ih s1 s' (hok s p s1 hP hstep) hrun
    | error e =>
      rw [hstep] at hrun
      exact Except.noConfusion hrun

/-- Transport a weaker invariant `Q` onto the final state of a pass,
whether or not the pass aborted. -/
theorem runList_out (step : S → MPath → Except (RunErr × S) S) (P Q : S → Prop)
    (hok : ∀ s p s', P s → step s p = .ok s' → P s')
    (herr : ∀ s p e s₂, P s → step s p = .error (e, s₂) → Q s₂)
    (hPQ : ∀ s, P s → Q s) :
    ∀ (ps : List MPath) (s : S), P s → Q (stepOut (runList step ps s)) := by
  intro ps
  induction ps with
  | nil =>
    intro s hP
    exact hPQ s hP
  | cons p ps ih =>
    intro s hP
    simp only [runList]
    cases hstep : step s p with
    | ok s1 => exact ih s1 (hok s p s1 hP hstep)
    | error e =>
      cases e with
      | mk e1 s₂ => exact herr s p e1 s₂ hP hstep

/-- A successful classifier step keeps the connection in sync, only grows
the committed `models` table (by at most one fresh-hashed row), keeps the
disk intact and performs no move. -/
theorem classifierStep_ok_invariants {reg : Registry} {s s' : S} {p : MPath}
    (hsync : inSync s) (hok : classifierStep reg s p = .ok s') :
    s'.fs = s.fs ∧ inSync s' ∧ rowsMono s.db.committed s'.db.committed
    ∧ (distinctHashes s.db.committed → distinctHashes s'.db.committed)
    ∧ movedEvents s'.trace = movedEvents s.trace := by
  rcases classifierStep_spec reg s p with ⟨hskip, heq⟩ |
    ⟨h1, h2, h3, ⟨hnone, heq⟩ | ⟨h, hh, ⟨hcat, heq⟩ | ⟨hfr, herr2 | hok2⟩⟩⟩
  · rw [heq] at hok
    injection hok with h4
    subst h4
    exact ⟨rfl, hsync, rowsMono_refl _, fun d => d, rfl⟩
  · rw [heq] at hok
    exact Except.noConfusion hok
  · rw [heq] at hok
    injection hok with h4
    subst h4
    refine ⟨rfl, hsync, rowsMono_refl _, fun d => d, ?_⟩
    simp [addTrace, movedEvents_append, movedEvents_single_hashed]
  · obtain ⟨e, s₂, heq, _, _, _⟩ := herr2
    rw [heq] at hok
    exact Except.noConfusion hok
  · obtain ⟨s'', cm, heq, hfs, hsy, hm, htr⟩ := hok2
    rw [heq] at hok
    injection hok with h4
    subst h4
    unfold inSync at hsync
    refine ⟨hfs, hsy, ?_, ?_, traceExt_movedEvents htr⟩
    · intro r hr
      rcases hm with hm | hm
      · rw [hm, hsync]; exact hr
      · rw [hm, hsync]; exact List.mem_append_left _ hr
    · intro hdh
      unfold distinctHashes at hdh ⊢
      rw [hsync] at hfr
      rcases hm with hm | hm
      · rw [hm, hsync]; exact hdh
      · rw [hm, hsync]
        exact distinctHashes_append hdh hfr
  
/-- A successful relocator step keeps the connection in sync and only grows
the committed `models` table (by at most one fresh-hashed row). -/
theorem relocatorStep_ok_invariants {reg : Registry} {s s' : S} {p : MPath}
    (hsync : inSync s) (hok : relocatorStep reg s p = .ok s') :
    inSync s' ∧ rowsMono s.db.committed s'.db.committed
    ∧ (distinctHashes s.db.committed → distinctHashes s'.db.committed) := by
  rcases relocatorStep_spec reg s p with ⟨hskip, heq⟩ |
    ⟨h1, h2, ⟨hnone, heq⟩ | ⟨h, hh, ⟨hcat, heq⟩ | ⟨hfr,
      herr2 | ⟨t, htgt, ⟨hin, s'', heq, hfs, hdb, htr⟩ |
        ⟨hnin, s'', heq, hfs, hsy, hm, htr⟩⟩⟩⟩⟩
  · rw [heq] at hok
    injection hok with h4
    subst h4
    exact ⟨hsync, rowsMono_refl _, fun d => d⟩
  · rw [heq] at hok
    exact Except.noConfusion hok
  · rw [heq] at hok
    injection hok with h4
    subst h4
    exact ⟨hsync, rowsMono_refl _, fun d => d⟩
  · obtain ⟨e, s₂, heq, _, _, _⟩ := herr2
    rw [heq] at hok
    exact Except.noConfusion hok
  · rw [heq] at hok
    injection hok with h4
    subst h4
    unfold inSync
    rw [hdb]
    exact ⟨rfl, rowsMono_refl _, fun d => d⟩
  · rw [heq] at hok
    injection hok with h4
    subst h4
    unfold inSync at hsync
    refine ⟨hsy, ?_, ?_⟩
    · intro r hr
      rcases hm with hm | ⟨cm, hm⟩
      · rw [hm, hsync]; exact hr
      · rw [hm, hsync]; exact List.mem_append_left _ hr
    · intro hdh
      unfold distinctHashes at hdh ⊢
      rw [hsync] at hfr
      rcases hm with hm | ⟨cm, hm⟩
      · rw [hm, hsync]; exact hdh
      · rw [hm, hsync]
        exact distinctHashes_append hdh hfr

/-- A classifier step that aborts leaves the committed catalog untouched. -/
theorem classifierStep_err_committed {reg : Registry} {s s₂ : S} {p : MPath} {e : RunErr}
    (herr : classifierStep reg s p = .error (e, s₂)) :
    s₂.db.committed = s.db.committed := by
  rcases classifierStep_spec reg s p with ⟨hskip, heq⟩ |
    ⟨h1, h2, h3, ⟨hnone, heq⟩ | ⟨h, hh, ⟨hcat, heq⟩ | ⟨hfr, herr2 | hok2⟩⟩⟩
  · rw [heq] at herr; exact Except.noConfusion herr
  · rw [heq] at herr
    injection herr with h4
    injection h4 with h4a h4b
    subst h4b
    rfl
  · rw [heq] at herr; exact Except.noConfusion herr
  · obtain ⟨e2, s₃, heq, _, hcm, _⟩ := herr2
    rw [heq] at herr
    injection herr with h4
    injection h4 with h4a h4b
    subst h4b
    exact hcm
  · obtain ⟨s'', cm, heq, _, _, _, _⟩ := hok2
    rw [heq] at herr; exact Except.noConfusion herr

/-- A relocator step that aborts leaves the committed catalog untouched. -/
theorem relocatorStep_err_committed {reg : Registry} {s s₂ : S} {p : MPath} {e : RunErr}
    (herr : relocatorStep reg s p = .error (e, s₂)) :
    s₂.db.committed = s.db.committed := by
  rcases relocatorStep_spec reg s p with ⟨hskip, heq⟩ |
    ⟨h1, h2, ⟨hnone, heq⟩ | ⟨h, hh, ⟨hcat, heq⟩ | ⟨hfr,
      herr2 | ⟨t, htgt, ⟨hin, s'', heq, hfs, hdb, htr⟩ |
        ⟨hnin, s'', heq, hfs, hsy, hm, htr⟩⟩⟩⟩⟩
  · rw [heq] at herr; exact Except.noConfusion herr
  · rw [heq] at herr
    injection herr with h4
    injection h4 with h4a h4b
    subst h4b
    rfl
  · rw [heq] at herr; exact Except.noConfusion herr
  · obtain ⟨e2, s₃, heq, _, hcm, _⟩ := herr2
    rw [heq] at herr
    injection herr with h4
    injection h4 with h4a h4b
    subst h4b
    exact hcm
  · rw [heq] at herr; exact Except.noConfusion herr
  · rw [heq] at herr; exact Except.noConfusion herr

end StepSpecs

theorem addTrace_fs (s : S) (e : Event) : (addTrace s e).fs = s.fs := rfl

theorem setStaged_fs (s : S) (c : Catalog) : (setStaged s c).fs = s.fs := rfl

theorem addTrace_db (s : S) (e : Event) : (addTrace s e).db = s.db := rfl

section Scenarios

/-- A registry whose by-hash lookup always answers 404. -/
def regNotFound : Registry :=
  { byHash := fun _ => ⟨404, none, none, none⟩, byId := fun _ => ⟨404, none⟩ }

/-- A file already organised under the loras bucket, not yet cataloged. -/
def fsClaim1 : Fs :=
  [(["models", "loras", "SDXL", "creatorX", "x.safetensors"], "h1")]

/-- A single new file sitting at the models root. -/
def fsRootNew : Fs := [(["models", "x.safetensors"], "h1")]

/-- The run state at the start of a pass over `fsRootNew` with an empty
catalog. -/
def sRootNew : S := ⟨⟨emptyCatalog, emptyCatalog⟩, fsRootNew, []⟩

deriving instance DecidableEq for Except

def isOkResult (r : Except (RunErr × S) S) : Bool :=
  match r with
  | .ok _ => true
  | _ => false

def isTypeErrorResult (r : Except (RunErr × S) S) : Bool :=
  match r with
  | .error (.typeError, _) => true
  | _ => false

/-- Some commit event is recorded strictly before some move event. -/
def commitPrecedesMove (tr : List Event) : Bool :=
  match tr with
  | [] => false
  | .didCommit :: rest =>
    rest.any (fun e => match e with | .moved _ _ => true | _ => false)
      || commitPrecedesMove rest
  | _ :: rest => commitPrecedesMove rest

end Scenarios

/-- A registry that knows hash `"h1"` as a LORA on SDXL by creatorX. -/
def regFound : Registry :=
  { byHash := fun h => if h = "h1" then ⟨200, some "LORA", some 7, some "SDXL"⟩
      else ⟨404, none, none, none⟩,
    byId := fun _ => ⟨200, some "creatorX"⟩ }

def isIntegrityExitResult (r : Except (RunErr × S) S) : Bool :=
  match r with
  | .error (.integrityExit, _) => true
  | _ => false

/-- The canonical target the relocator computes for `"h1"` under `regFound`. -/
def tgtClaim5 : MPath := ["models", "loras", "SDXL", "creatorX", "x.safetensors"]

/-- A catalog in which that target path is already cataloged (under another
hash). -/
def catClaim5 : Catalog := { emptyCatalog with models := [⟨tgtClaim5, "h0", none⟩] }

def sClaim5 : S := ⟨⟨catClaim5, catClaim5⟩,
  [(["models", "x.safetensors"], "h1"), (tgtClaim5, "h0")], []⟩

/-- The insert-then-select upsert always resolves an id for a non-null name. -/
theorem selectRefId_insert_some (rows : List RefRow) (nid : Nat) (v : String) :
    ∃ i, selectRefId (insertRefRows rows nid (some v)).1 (some v) = some i := by
  unfold insertRefRows selectRefId
  dsimp only
  by_cases hv : rows.any (fun r => r.name = v) = true
  · rw [if_pos hv]
    rcases hfind : rows.find? (fun r => r.name = v) with _ | r2
    · exfalso
      rcases List.any_eq_true.mp hv with ⟨r, hr, hname⟩
      rw [List.find?_eq_none] at hfind
      exact hfind r hr hname
    · exact ⟨r2.id, by rw [hfind]; rfl⟩
  · rw [if_neg hv]
    rcases hfind : (rows ++ [(⟨nid, v⟩ : RefRow)]).find? (fun r => r.name = v) with _ | r2
    · exfalso
      rw [List.find?_eq_none] at hfind
      refine hfind ⟨nid, v⟩ (List.mem_append_right _ (by simp)) ?_
      simp
    · exact ⟨r2.id, by rw [hfind]; rfl⟩

theorem getOrCreateType_some (c : Catalog) (v : String) :
    ∃ i, (getOrCreateType c (some v)).2 = some i :=
  selectRefId_insert_some c.types c.nextTypeId v

theorem getOrCreateBaseModel_some (c : Catalog) (v : String) :
    ∃ i, (getOrCreateBaseModel c (some v)).2 = some i :=
  selectRefId_insert_some c.baseModels c.nextBaseModelId v

theorem getOrCreateCreator_some (c : Catalog) (v : String) :
    ∃ i, (getOrCreateCreator c (some v)).2 = some i :=
  selectRefId_insert_some c.creators c.nextCreatorId v

/-- Every civitai id referenced from `models` is below the autoincrement
counter (true of every state sqlite itself produces). -/
def civitaiFresh (c : Catalog) : Bool :=
  c.models.all (fun r => match r.civitaiModelId with
    | some i => i < c.nextCivitaiId
    | none => true)

theorem modelsConflict_fresh_false {rows : List ModelsRow} {p : MPath} {h : String}
    {cid : Nat}
    (hp : pathCataloged rows p = false) (hh : hashCataloged rows h = false)
    (hciv : ∀ r ∈ rows, r.civitaiModelId ≠ some cid) :
    modelsConflict rows p h (some cid) = false := by
  unfold modelsConflict
  rw [List.any_eq_false]
  intro r hr
  unfold pathCataloged at hp
  unfold hashCataloged at hh
  rw [List.any_eq_false] at hp hh
  have h1 := hp r hr
  have h2 := hh r hr
  simp only [decide_eq_true_eq] at h1 h2 ⊢
  rintro (hc | hc | ⟨hs, hc⟩)
  · exact h1 hc
  · exact h2 hc
  · exact hciv r hr hc

theorem civitaiFresh_not_some {c : Catalog} (hciv : civitaiFresh c = true) :
    ∀ r ∈ c.models, r.civitaiModelId ≠ some c.nextCivitaiId := by
  intro r hr hc
  unfold civitaiFresh at hciv
  rw [List.all_eq_true] at hciv
  have := hciv r hr
  rw [hc] at this
  simp only [decide_eq_true_eq] at this
  omega

section Claims

/-- C1 (code bug): for `models/loras/SDXL/creatorX/x.safetensors`, uncataloged
and 404 at the registry, the spec expects the triple (loras, SDXL, creatorX)
with "loras" reverse-mapped to "LORA" (LoCon/DoRA excluded).  The code takes
`parts[:3] = (models, loras, SDXL)` instead, reverse-maps "models" (which is
not in the reverse map, though "loras" ↦ "LORA" is), inserts a NULL type name
(swallowed), and then crashes with a TypeError on `dict(cursor.fetchone())`:
no CatalogEntry and no ModelFile row is ever created. -/
theorem claim1_offline_classifier_crashes :
    (["models", "loras", "SDXL", "creatorX", "x.safetensors"] : MPath).take 3
        = ["models", "loras", "SDXL"]
    ∧ reverseTypeDirectoryMap
        = [("checkpoints", "Checkpoint"), ("embeddings", "TextualInversion"),
           ("loras", "LORA"), ("vae", "VAE")]
    ∧ dictGet reverseTypeDirectoryMap "loras" = some "LORA"
    ∧ dictGet reverseTypeDirectoryMap "models" = none
    ∧ isTypeErrorResult (runFull regNotFound emptyCatalog fsClaim1) = true
    ∧ (stepOut (runFull regNotFound emptyCatalog fsClaim1)).db.committed.civitaiModels = []
    ∧ (stepOut (runFull regNotFound emptyCatalog fsClaim1)).db.committed.models = [] := by
  decide

/-- C2 counterexample: a new root file whose hash gets a 404 is moved to
`models/loras/null/x.safetensors`, yet the catalog still holds NO ModelFile
row after the run — contradicting the claim that a hash+path row is created
during that same relocation. -/
theorem claim2_counterexample :
    isOkResult (runFull regNotFound emptyCatalog fsRootNew) = true
    ∧ (stepOut (runFull regNotFound emptyCatalog fsRootNew)).fs
        = [(["models", "loras", "null", "x.safetensors"], "h1")]
    ∧ (stepOut (runFull regNotFound emptyCatalog fsRootNew)).db.committed.models = [] := by
  decide

/-- C2 (amended): when the relocator meets a new file whose hash the registry
reports 404 and nothing occupies the quarantine target, the file is moved to
`models/loras/null/<filename>` but NO catalog write of any kind happens during
that relocation — the commit promotes an unchanged staged catalog, so no
ModelFile row (and no CatalogEntry) records the file; the hash+path row only
appears when a later run's classifier pass visits the null bucket. -/
theorem claim2_relocator_404_moves_without_row (reg : Registry) (s : S) (p : MPath)
    (h : String)
    (hsuf : pathSuffix (nameOf p) ∈ MODEL_EXTENSIONS)
    (hroot : p.dropLast = MODEL_PATH)
    (hh : hashOf s.fs p = some h)
    (hfresh : hashCataloged s.db.staged.models h = false)
    (h404 : (reg.byHash h).status = 404)
    (htgt : ¬ (MODEL_NOT_FOUND_PATH ++ [nameOf p]) ∈ fsPaths s.fs) :
    relocatorStep reg s p = .ok
      { db := ⟨s.db.staged, s.db.staged⟩,
        fs := moveFile s.fs p (MODEL_NOT_FOUND_PATH ++ [nameOf p]),
        trace := s.trace ++ [.hashed p, .regByHash h,
          .moved p (MODEL_NOT_FOUND_PATH ++ [nameOf p]), .didCommit] }
    ∧ (stepOut (relocatorStep reg s p)).db.committed.models = s.db.staged.models := by
  have hf : ¬ hashCataloged s.db.staged.models h = true := by simp [hfresh]
  have h500 : ¬ (reg.byHash h).status = 500 := by rw [h404]; decide
  have hstep : relocatorStep reg s p = .ok
      { db := ⟨s.db.staged, s.db.staged⟩,
        fs := moveFile s.fs p (MODEL_NOT_FOUND_PATH ++ [nameOf p]),
        trace := s.trace ++ [.hashed p, .regByHash h,
          .moved p (MODEL_NOT_FOUND_PATH ++ [nameOf p]), .didCommit] } := by
    simp only [relocatorStep]
    rw [if_neg (not_not_intro hsuf), if_neg (not_not_intro hroot), hh]
    dsimp only
    rw [if_neg hf]
    simp only [relocatorRegistry]
    rw [if_neg h500, if_pos h404]
    simp only [finishMove, addTrace_fs]
    rw [if_neg htgt]
    simp [commitS, addTrace]
  refine ⟨hstep, ?_⟩
  rw [hstep]
  rfl

/-- C4 counterexample: relocating the concrete new file
`models/x.safetensors` (registry 404) produces the trace hash → registry →
MOVE → COMMIT: the move happens and no commit precedes it, contradicting the
claim that the catalog is committed before the filesystem move. -/
theorem claim4_counterexample :
    (stepOut (relocatorStep regNotFound sRootNew ["models", "x.safetensors"])).trace
      = [.hashed ["models", "x.safetensors"], .regByHash "h1",
         .moved ["models", "x.safetensors"] ["models", "loras", "null", "x.safetensors"],
         .didCommit]
    ∧ commitPrecedesMove
        (stepOut (relocatorStep regNotFound sRootNew ["models", "x.safetensors"])).trace
      = false
    ∧ movedEvents
        (stepOut (relocatorStep regNotFound sRootNew ["models", "x.safetensors"])).trace
      ≠ [] := by
  decide

/-- C4 (amended): during relocation the filesystem move precedes the catalog
commit: whenever a relocator step records a move, the step's new events end
with the move immediately followed by the commit, and no commit among the
step's new events precedes the move — so a crash between the two leaves the
disk ahead of the catalog (the staged row is lost), not the catalog ahead of
the disk. -/
theorem claim4_move_then_commit (reg : Registry) (s s' : S) (p : MPath)
    (hok : relocatorStep reg s p = .ok s')
    (hmv : movedEvents s'.trace ≠ movedEvents s.trace) :
    ∃ t pre, s'.trace = s.trace ++ pre ++ [.moved p t, .didCommit]
      ∧ movedEvents pre = [] ∧ Event.didCommit ∉ pre := by
  rcases relocatorStep_spec reg s p with ⟨hskip, heq⟩ |
    ⟨h1, h2, ⟨hnone, heq⟩ | ⟨h, hh, ⟨hcat, heq⟩ | ⟨hfr,
      herr2 | ⟨t, htgt, ⟨hin, s'', heq, hfs, hdb, htr⟩ |
        ⟨hnin, s'', heq, hfs, hsy, hm, htr⟩⟩⟩⟩⟩
  · rw [heq] at hok
    injection hok with h4
    subst h4
    exact absurd rfl hmv
  · rw [heq] at hok
    exact Except.noConfusion hok
  · rw [heq] at hok
    injection hok with h4
    subst h4
    exact absurd (by simp [addTrace, movedEvents_append, movedEvents_single_hashed]) hmv
  · obtain ⟨e, s₂, heq, _, _, _⟩ := herr2
    rw [heq] at hok
    exact Except.noConfusion hok
  · rw [heq] at hok
    injection hok with h4
    subst h4
    exact absurd (traceExt_movedEvents htr) hmv
  · rw [heq] at hok
    injection hok with h4
    subst h4
    obtain ⟨pre, htr2, hmv2, hnc, _⟩ := htr
    exact ⟨t, pre, htr2, hmv2, hnc⟩

/-- C5 counterexample: file A (`models/x.safetensors`, hash h1) computes
target T = `models/loras/SDXL/creatorX/x.safetensors`; T already physically
exists AND is already cataloged under another hash.  Instead of rolling back
and continuing with the next file, the staged ModelFile insert — which the
source performs BEFORE the conflict check — violates the UNIQUE path
constraint and, being executed with `enable_exception=True`, logs and
`exit()`s: the run terminates. -/
theorem claim5_counterexample :
    tgtClaim5 ∈ fsPaths sClaim5.fs
    ∧ relocTarget regFound "h1" "x.safetensors" = some tgtClaim5
    ∧ isIntegrityExitResult
        (relocatorStep regFound sClaim5 ["models", "x.safetensors"]) = true := by
  decide

/-- C5 (amended): if relocating file A computes target T and T already
physically exists — and the staged ModelFile insert itself raises no
uniqueness conflict (T's path is not already cataloged and the catalog's
civitai ids are below the autoincrement counter, as sqlite guarantees) —
then A's transaction is rolled back: A stays at its original path, the
database is exactly the committed catalog from before A's processing, and
the step returns ok so the run continues with the next file. -/
theorem claim5_conflict_rollback (reg : Registry) (s : S) (p : MPath)
    (h : String) (t : MPath)
    (hsuf : pathSuffix (nameOf p) ∈ MODEL_EXTENSIONS)
    (hroot : p.dropLast = MODEL_PATH)
    (hh : hashOf s.fs p = some h)
    (hfresh : hashCataloged s.db.staged.models h = false)
    (htgt : relocTarget reg h (nameOf p) = some t)
    (hexists : t ∈ fsPaths s.fs)
    (hpath : pathCataloged s.db.staged.models t = false)
    (hciv : civitaiFresh s.db.staged = true) :
    ∃ s', relocatorStep reg s p = .ok s'
      ∧ s'.fs = s.fs
      ∧ s'.db = ⟨s.db.committed, s.db.committed⟩
      ∧ traceExt p s s' := by
  have hf : ¬ hashCataloged s.db.staged.models h = true := by simp [hfresh]
  simp only [relocatorStep]
  rw [if_neg (not_not_intro hsuf), if_neg (not_not_intro hroot), hh]
  dsimp only
  rw [if_neg hf]
  unfold relocTarget at htgt
  by_cases h500 : (reg.byHash h).status = 500
  · rw [if_pos h500] at htgt
    exact absurd htgt (by simp)
  rw [if_neg h500] at htgt
  simp only [relocatorRegistry]
  rw [if_neg h500]
  by_cases h404 : (reg.byHash h).status = 404
  · rw [if_pos h404] at htgt
    injection htgt with ht
    rw [if_pos h404]
    simp only [finishMove, addTrace_fs]
    rw [ht, if_pos hexists]
    refine ⟨_, rfl, rfl, rfl, ?_⟩
    exact traceExt_trans (traceExt_tail_hashed rfl)
      (traceExt_trans (traceExt_tail_regByHash rfl) (traceExt_tail_rollback rfl))
  rw [if_neg h404] at htgt ⊢
  cases hmid : (reg.byHash h).modelId with
  | none =>
    rw [hmid] at htgt
    exact absurd htgt (by simp)
  | some mid =>
    rw [hmid] at htgt
    dsimp only at htgt ⊢
    by_cases hbid : (reg.byId mid).status = 500
    · rw [if_pos hbid] at htgt
      exact absurd htgt (by simp)
    rw [if_neg hbid] at htgt
    simp only [relocatorFound]
    rw [if_neg hbid]
    cases hmt : (reg.byHash h).modelType with
    | none =>
      rw [hmt] at htgt
      exact absurd htgt (by simp)
    | some mt =>
      rw [hmt] at htgt
      dsimp only at htgt ⊢
      cases hmb : (reg.byHash h).baseModel with
      | none =>
        rw [hmb] at htgt
        exact absurd htgt (by simp)
      | some mb =>
        rw [hmb] at htgt
        dsimp only at htgt ⊢
        cases hd : dictGet MODEL_TYPE_TO_DIRECTORY_MAP mt with
        | none =>
          rw [hd] at htgt
          exact absurd htgt (by simp)
        | some d =>
          rw [hd] at htgt
          dsimp only at htgt ⊢
          injection htgt with ht
          simp only [relocatorInsert]
          obtain ⟨tid, hct⟩ := getOrCreateType_some
            (addTrace (addTrace (addTrace s (.hashed p)) (.regByHash h))
              (.regById mid)).db.staged mt
          rw [hct]
          dsimp only
          obtain ⟨bid, hcb⟩ := getOrCreateBaseModel_some
            (getOrCreateType (addTrace (addTrace (addTrace s (.hashed p)) (.regByHash h))
              (.regById mid)).db.staged (some mt)).1 mb
          rw [hcb]
          dsimp only
          obtain ⟨cid, hcc⟩ := getOrCreateCreator_some
            (getOrCreateBaseModel
              (getOrCreateType (addTrace (addTrace (addTrace s (.hashed p)) (.regByHash h))
                (.regById mid)).db.staged (some mt)).1 (some mb)).1
            (creatorOf (reg.byId mid))
          rw [hcc]
          dsimp only
          generalize hc3 : insertCivitai
            (getOrCreateCreator
              (getOrCreateBaseModel
                (getOrCreateType (addTrace (addTrace (addTrace s (.hashed p)) (.regByHash h))
                  (.regById mid)).db.staged (some mt)).1 (some mb)).1
              (creatorOf (reg.byId mid))).1 tid bid cid = c3pair
          have hm3 : c3pair.1.models = s.db.staged.models := by
            rw [← hc3]
            simp [insertCivitai, getOrCreateCreator, getOrCreateBaseModel, getOrCreateType,
              addTrace]
          have hn3 : c3pair.2 = s.db.staged.nextCivitaiId := by
            rw [← hc3]
            simp [insertCivitai, getOrCreateCreator, getOrCreateBaseModel, getOrCreateType,
              addTrace]
          have hconf : modelsConflict c3pair.1.models
              (pyPath ["models", d, mb, creatorOf (reg.byId mid), nameOf p]) h
              (some c3pair.2) = false := by
            rw [hm3, hn3, ht]
            exact modelsConflict_fresh_false hpath hfresh (civitaiFresh_not_some hciv)
          rw [if_neg (by simp [hconf])]
          simp only [finishMove, setStaged_fs, addTrace_fs]
          rw [← ht] at hexists
          rw [if_pos hexists]
          refine ⟨_, rfl, rfl, rfl, ?_⟩
          refine traceExt_trans (traceExt_tail_hashed rfl)
            (traceExt_trans (traceExt_tail_regByHash rfl)
              (traceExt_trans (traceExt_tail_regById rfl) (traceExt_tail_rollback rfl)))

/-- C5 witness: the amended theorem at a concrete rollback scenario: the
target exists on disk but is not cataloged, so the step rolls back and
returns ok. -/
theorem claim5_witness :
    ∃ s', relocatorStep regFound
        ⟨⟨emptyCatalog, emptyCatalog⟩,
         [(["models", "x.safetensors"], "h1"), (tgtClaim5, "h0")], []⟩
        ["models", "x.safetensors"] = .ok s'
      ∧ s'.fs = (⟨⟨emptyCatalog, emptyCatalog⟩,
          [(["models", "x.safetensors"], "h1"), (tgtClaim5, "h0")], []⟩ : S).fs
      ∧ s'.db = ⟨emptyCatalog, emptyCatalog⟩
      ∧ traceExt ["models", "x.safetensors"]
          ⟨⟨emptyCatalog, emptyCatalog⟩,
           [(["models", "x.safetensors"], "h1"), (tgtClaim5, "h0")], []⟩ s' :=
  claim5_conflict_rollback regFound _ _ "h1" tgtClaim5
    (by decide) (by decide) (by decide) (by decide) (by decide) (by decide)
    (by decide) (by decide)

/-- C2 witness: the amended theorem applied at the concrete 404 scenario. -/
theorem claim2_witness :
    relocatorStep regNotFound sRootNew ["models", "x.safetensors"] = .ok
      { db := ⟨sRootNew.db.staged, sRootNew.db.staged⟩,
        fs := moveFile sRootNew.fs ["models", "x.safetensors"]
          (MODEL_NOT_FOUND_PATH ++ [nameOf ["models", "x.safetensors"]]),
        trace := sRootNew.trace ++ [.hashed ["models", "x.safetensors"], .regByHash "h1",
          .moved ["models", "x.safetensors"]
            (MODEL_NOT_FOUND_PATH ++ [nameOf ["models", "x.safetensors"]]), .didCommit] }
    ∧ (stepOut (relocatorStep regNotFound sRootNew
        ["models", "x.safetensors"])).db.committed.models
      = sRootNew.db.staged.models :=
  claim2_relocator_404_moves_without_row regNotFound sRootNew _ "h1"
    (by decide) (by decide) (by decide) (by decide) (by decide) (by decide)

/-- C4 witness: the amended theorem applied at the concrete 404 relocation. -/
theorem claim4_witness :
    ∃ t pre,
      (stepOut (relocatorStep regNotFound sRootNew ["models", "x.safetensors"])).trace
        = sRootNew.trace ++ pre ++ [.moved ["models", "x.safetensors"] t, .didCommit]
      ∧ movedEvents pre = [] ∧ Event.didCommit ∉ pre :=
  claim4_move_then_commit regNotFound sRootNew
    (stepOut (relocatorStep regNotFound sRootNew ["models", "x.safetensors"]))
    ["models", "x.safetensors"] (by decide) (by decide)

/-- A registry that answers status 418 with a perfectly well-formed LORA
body. -/
def reg418 : Registry :=
  { byHash := fun _ => ⟨418, some "LORA", some 7, some "SDXL"⟩,
    byId := fun _ => ⟨200, some "creatorX"⟩ }

/-- C7 counterexample: a by-hash response with status 418 — neither found
(200), nor 404, nor 500 — does not terminate the run: the classifier
silently treats it as a found record and commits a CatalogEntry with the
body's type. -/
theorem claim7_counterexample :
    isOkResult (runFull reg418 emptyCatalog fsClaim1) = true
    ∧ (stepOut (runFull reg418 emptyCatalog fsClaim1)).db.committed.types
        = [⟨1, "LORA"⟩]
    ∧ (stepOut (runFull reg418 emptyCatalog fsClaim1)).db.committed.civitaiModels ≠ []
    ∧ (stepOut (runFull reg418 emptyCatalog fsClaim1)).db.committed.models ≠ [] := by
  decide

/-- Replace the status of the by-hash response for `h` by `n`, keeping the
body and the by-id endpoint. -/
def withHashStatus (reg : Registry) (h : String) (n : Nat) : Registry :=
  ⟨fun x => if x = h then { reg.byHash x with status := n } else reg.byHash x,
   reg.byId⟩

/-- C7 (amended): a by-hash response whose status is neither 404 nor 500 is
processed by both passes exactly as a found (status-200) response with the
same body: there is no status-based fatal path, and the run only aborts if
the body itself lacks the expected fields. -/
theorem claim7_other_status_treated_found (reg : Registry) (s : S) (p : MPath)
    (h : String)
    (hh : hashOf s.fs p = some h)
    (h404 : ¬ (reg.byHash h).status = 404)
    (h500 : ¬ (reg.byHash h).status = 500) :
    classifierStep reg s p = classifierStep (withHashStatus reg h 200) s p
    ∧ relocatorStep reg s p = relocatorStep (withHashStatus reg h 200) s p := by
  have hreg : (withHashStatus reg h 200).byHash h = { reg.byHash h with status := 200 } := by
    simp [withHashStatus]
  have hRegStage : ∀ s₂ t b cr, classifierRegistry reg s₂ p h t b cr
      = classifierRegistry (withHashStatus reg h 200) s₂ p h t b cr := by
    intro s₂ t b cr
    simp only [classifierRegistry, hreg]
    rw [if_neg h500, if_neg h404,
      if_neg (by decide : ¬ (200 : Nat) = 500), if_neg (by decide : ¬ (200 : Nat) = 404)]
  have hAfter : ∀ s₁, classifierAfterHash reg s₁ p h
      = classifierAfterHash (withHashStatus reg h 200) s₁ p h := by
    intro s₁
    simp only [classifierAfterHash, hRegStage]
  have hFound : ∀ s₂ mid, relocatorFound reg s₂ p h { reg.byHash h with status := 200 } mid
      = relocatorFound (withHashStatus reg h 200) s₂ p h
          { reg.byHash h with status := 200 } mid := by
    intro s₂ mid
    simp only [relocatorFound, withHashStatus]
  have hRel : ∀ s₁, relocatorRegistry reg s₁ p h
      = relocatorRegistry (withHashStatus reg h 200) s₁ p h := by
    intro s₁
    simp only [relocatorRegistry, hreg]
    rw [if_neg h500, if_neg h404,
      if_neg (by decide : ¬ (200 : Nat) = 500), if_neg (by decide : ¬ (200 : Nat) = 404)]
    cases hmid : (reg.byHash h).modelId with
    | none => rfl
    | some mid =>
      dsimp only
      have h2 : relocatorFound reg (addTrace s₁ (.regById mid)) p h (reg.byHash h) mid
          = relocatorFound reg (addTrace s₁ (.regById mid)) p h
              { reg.byHash h with status := 200 } mid := by
        simp only [relocatorFound]
      rw [h2, hFound]
      simp [hmid]
  constructor
  · simp only [classifierStep, hh]
    rw [hAfter]
  · simp only [relocatorStep, hh]
    rw [hRel]

/-- C7 witness: the congruence applied at the concrete 418 scenario. -/
theorem claim7_witness :
    classifierStep reg418 ⟨⟨emptyCatalog, emptyCatalog⟩, fsClaim1, []⟩
        ["models", "loras", "SDXL", "creatorX", "x.safetensors"]
      = classifierStep (withHashStatus reg418 "h1" 200)
          ⟨⟨emptyCatalog, emptyCatalog⟩, fsClaim1, []⟩
          ["models", "loras", "SDXL", "creatorX", "x.safetensors"]
    ∧ relocatorStep reg418 ⟨⟨emptyCatalog, emptyCatalog⟩, fsClaim1, []⟩
        ["models", "loras", "SDXL", "creatorX", "x.safetensors"]
      = relocatorStep (withHashStatus reg418 "h1" 200)
          ⟨⟨emptyCatalog, emptyCatalog⟩, fsClaim1, []⟩
          ["models", "loras", "SDXL", "creatorX", "x.safetensors"] :=
  claim7_other_status_treated_found reg418 _ _ "h1" (by decide) (by decide) (by decide)

/-- A catalog that already holds the root file's path (under another hash). -/
def catClaim8 : Catalog :=
  { emptyCatalog with models := [⟨["models", "x.safetensors"], "h0", none⟩] }

def sClaim8 : S := ⟨⟨catClaim8, catClaim8⟩, fsRootNew, []⟩

/-- C8 counterexample: the relocator never queries the catalog by path: for a
root file whose path IS already cataloged it still computes the hash (a
`hashed` event is recorded) and even proceeds to move the file — it is not
skipped. -/
theorem claim8_counterexample :
    pathCataloged sClaim8.db.staged.models ["models", "x.safetensors"] = true
    ∧ (stepOut (relocatorStep regNotFound sClaim8 ["models", "x.safetensors"])).trace
        = [.hashed ["models", "x.safetensors"], .regByHash "h1",
           .moved ["models", "x.safetensors"] ["models", "loras", "null", "x.safetensors"],
           .didCommit]
    ∧ (stepOut (relocatorStep regNotFound sClaim8 ["models", "x.safetensors"])).fs
        ≠ sClaim8.fs := by
  decide

/-- C8 (amended): only the classifier queries the catalog by path before
hashing — a classifier-eligible file whose path is cataloged is skipped with
the state completely unchanged (no hash computed).  The relocator has no
path check at all: for every root file it can open, the hash is computed
unconditionally (the step's first new event is always `hashed`). -/
theorem claim8_classifier_path_check_relocator_none (reg : Registry) :
    (∀ s p, pathSuffix (nameOf p) ∈ MODEL_EXTENSIONS → p.take 2 ∈ MODEL_TYPE_PATHS →
      pathCataloged s.db.staged.models p = true → classifierStep reg s p = .ok s)
    ∧ (∀ s p h, pathSuffix (nameOf p) ∈ MODEL_EXTENSIONS → p.dropLast = MODEL_PATH →
      hashOf s.fs p = some h →
      ∃ rest, (stepOut (relocatorStep reg s p)).trace = s.trace ++ .hashed p :: rest) := by
  constructor
  · intro s p h1 h2 h3
    simp only [classifierStep]
    rw [if_neg (not_not_intro h1), if_neg (not_not_intro h2), if_pos h3]
  · intro s p h h1 h2 hh
    simp only [relocatorStep]
    rw [if_neg (not_not_intro h1), if_neg (not_not_intro h2), hh]
    dsimp only
    by_cases hcat : hashCataloged s.db.staged.models h = true
    · rw [if_pos hcat]
      exact ⟨[], by simp [stepOut, addTrace]⟩
    · rw [if_neg hcat]
      have key : ∃ tail2, (stepOut (relocatorRegistry reg
          (addTrace (addTrace s (.hashed p)) (.regByHash h)) p h)).trace
          = (addTrace (addTrace s (.hashed p)) (.regByHash h)).trace ++ tail2 := by
        rcases relocatorRegistry_spec reg
            (addTrace (addTrace s (.hashed p)) (.regByHash h)) p h with
          ⟨e, s₂, heq, _, _, ⟨tail, htr, _, _⟩⟩ |
          ⟨t, htgt, ⟨hin, s₃, heq, _, _, ⟨tail, htr, _, _⟩⟩ |
            ⟨hnin, s₃, heq, _, _, _, ⟨pre, htr, _, _, _⟩⟩⟩
        · exact ⟨tail, by rw [heq]; exact htr⟩
        · exact ⟨tail, by rw [heq]; exact htr⟩
        · exact ⟨pre ++ [.moved p t, .didCommit], by rw [heq]; simpa using htr⟩
      obtain ⟨tail2, htail⟩ := key
      refine ⟨Event.regByHash h :: tail2, ?_⟩
      rw [htail]
      simp [addTrace]

/-- C8 witness: for the concrete path-cataloged classifier file the step is a
no-op; for the concrete root file the relocator still records a hash event. -/
theorem claim8_witness :
    classifierStep regNotFound
        ⟨⟨catClaim5, catClaim5⟩, [(tgtClaim5, "h0")], []⟩ tgtClaim5
      = .ok ⟨⟨catClaim5, catClaim5⟩, [(tgtClaim5, "h0")], []⟩
    ∧ ∃ rest, (stepOut (relocatorStep regNotFound sClaim8
        ["models", "x.safetensors"])).trace
        = sClaim8.trace ++ .hashed ["models", "x.safetensors"] :: rest :=
  ⟨(claim8_classifier_path_check_relocator_none regNotFound).1
      ⟨⟨catClaim5, catClaim5⟩, [(tgtClaim5, "h0")], []⟩ tgtClaim5
      (by decide) (by decide) (by decide),
   (claim8_classifier_path_check_relocator_none regNotFound).2
      sClaim8 ["models", "x.safetensors"] "h1" (by decide) (by decide) (by decide)⟩

/-- C9: when the registry knows the hash but reports a model type outside
MODEL_TYPE_TO_DIRECTORY_MAP (its six keys), `MAP.get(type)` yields None and
`Path(MODEL_PATH, None, ...)` raises an uncaught TypeError: the run
terminates with the database exactly as it was (not even staged writes) and
no move, commit or rollback for that file. -/
theorem claim9_unmapped_type_fatal (reg : Registry) (s : S) (p : MPath) (h : String)
    (mid : Nat) (mt mb : String)
    (hsuf : pathSuffix (nameOf p) ∈ MODEL_EXTENSIONS)
    (hroot : p.dropLast = MODEL_PATH)
    (hh : hashOf s.fs p = some h)
    (hfresh : hashCataloged s.db.staged.models h = false)
    (h404 : ¬ (reg.byHash h).status = 404)
    (h500 : ¬ (reg.byHash h).status = 500)
    (hmid : (reg.byHash h).modelId = some mid)
    (hbid : ¬ (reg.byId mid).status = 500)
    (hmt : (reg.byHash h).modelType = some mt)
    (hmb : (reg.byHash h).baseModel = some mb)
    (hd : dictGet MODEL_TYPE_TO_DIRECTORY_MAP mt = none) :
    relocatorStep reg s p = .error (.typeError,
      { db := s.db, fs := s.fs,
        trace := s.trace ++ [.hashed p, .regByHash h, .regById mid] }) := by
  have hf : ¬ hashCataloged s.db.staged.models h = true := by simp [hfresh]
  simp only [relocatorStep]
  rw [if_neg (not_not_intro hsuf), if_neg (not_not_intro hroot), hh]
  dsimp only
  rw [if_neg hf]
  simp only [relocatorRegistry]
  rw [if_neg h500, if_neg h404, hmid]
  dsimp only
  simp only [relocatorFound]
  rw [if_neg hbid, hmt]
  dsimp only
  rw [hmb]
  dsimp only
  rw [hd]
  simp [addTrace]

/-- A registry reporting the unmapped type "Hypernetwork". -/
def regHypernetwork : Registry :=
  { byHash := fun _ => ⟨200, some "Hypernetwork", some 7, some "SDXL"⟩,
    byId := fun _ => ⟨200, some "creatorX"⟩ }

/-- C9 witness: the concrete Hypernetwork response aborts the run before any
catalog write or move. -/
theorem claim9_witness :
    relocatorStep regHypernetwork sRootNew ["models", "x.safetensors"]
      = .error (.typeError,
        { db := sRootNew.db, fs := sRootNew.fs,
          trace := sRootNew.trace ++ [.hashed ["models", "x.safetensors"],
            .regByHash "h1", .regById 7] }) :=
  claim9_unmapped_type_fatal regHypernetwork sRootNew _ "h1" 7 "Hypernetwork" "SDXL"
    (by decide) (by decide) (by decide) (by decide) (by decide) (by decide)
    (by decide) (by decide) (by decide) (by decide) (by decide)

/-- The catalog after the startup work (`CREATE TABLE IF NOT EXISTS` plus the
committed pre-seed of the `'null'` creator, line 122). -/
def startCatalog (c0 : Catalog) : Catalog :=
  { c0 with
    creators := (insertRefRows c0.creators c0.nextCreatorId (some "null")).1,
    nextCreatorId := (insertRefRows c0.creators c0.nextCreatorId (some "null")).2 }

/-- The run state right after startup. -/
def startS (c0 : Catalog) (fs0 : Fs) : S :=
  ⟨⟨startCatalog c0, startCatalog c0⟩, fs0, [.didCommit]⟩

theorem runFull_eq (reg : Registry) (c0 : Catalog) (fs0 : Fs) :
    runFull reg c0 fs0 =
      match runList (classifierStep reg) (fsPaths (startS c0 fs0).fs) (startS c0 fs0) with
      | .error e => .error e
      | .ok s1 => runList (relocatorStep reg) (fsPaths s1.fs) s1 := rfl

/-- Transport an invariant `P` (with weakening `Q` at aborts) through a whole
run: startup, classifier pass, relocator pass. -/
theorem runFull_out (reg : Registry) (c0 : Catalog) (fs0 : Fs)
    (P Q : S → Prop)
    (hokc : ∀ s p s', P s → classifierStep reg s p = .ok s' → P s')
    (herrc : ∀ s p e s₂, P s → classifierStep reg s p = .error (e, s₂) → Q s₂)
    (hokr : ∀ s p s', P s → relocatorStep reg s p = .ok s' → P s')
    (herrr : ∀ s p e s₂, P s → relocatorStep reg s p = .error (e, s₂) → Q s₂)
    (hPQ : ∀ s, P s → Q s)
    (hP0 : P (startS c0 fs0)) :
    Q (stepOut (runFull reg c0 fs0)) := by
  rw [runFull_eq]
  cases hcl : runList (classifierStep reg) (fsPaths (startS c0 fs0).fs) (startS c0 fs0) with
  | error e =>
    have h2 := runList_out (classifierStep reg) P Q hokc herrc hPQ
      (fsPaths (startS c0 fs0).fs) (startS c0 fs0) hP0
    rw [hcl] at h2
    exact h2
  | ok s1 =>
    have hP1 := runList_ok_inv (classifierStep reg) P hokc
      (fsPaths (startS c0 fs0).fs) (startS c0 fs0) s1 hP0 hcl
    exact runList_out (relocatorStep reg) P Q hokr herrr hPQ (fsPaths s1.fs) s1 hP1

/-- C6: no two distinct ModelFile rows ever share a content hash: the
property is preserved by a whole run (even an aborted one), because both
passes re-check the hash right before their only inserts; and a file whose
computed hash is already cataloged is skipped by either pass without error
and without any state change beyond recording that it was hashed. -/
theorem claim6_hash_unique (reg : Registry) (c0 : Catalog) (fs0 : Fs)
    (hdh : distinctHashes c0) :
    distinctHashes (stepOut (runFull reg c0 fs0)).db.committed
    ∧ (∀ s p h, hashOf s.fs p = some h → hashCataloged s.db.staged.models h = true →
        classifierStep reg s p = .ok s
        ∨ classifierStep reg s p = .ok (addTrace s (.hashed p)))
    ∧ (∀ s p h, hashOf s.fs p = some h → hashCataloged s.db.staged.models h = true →
        relocatorStep reg s p = .ok s
        ∨ relocatorStep reg s p = .ok (addTrace s (.hashed p))) := by
  refine ⟨?_, ?_, ?_⟩
  · refine runFull_out reg c0 fs0
      (fun s => inSync s ∧ distinctHashes s.db.committed)
      (fun s => distinctHashes s.db.committed)
      ?_ ?_ ?_ ?_ (fun s hP => hP.2) ⟨rfl, hdh⟩
    · intro s p s' hP hok
      have I := classifierStep_ok_invariants hP.1 hok
      exact ⟨I.2.1, I.2.2.2.1 hP.2⟩
    · intro s p e s₂ hP herr
      rw [classifierStep_err_committed herr]
      exact hP.2
    · intro s p s' hP hok
      have I := relocatorStep_ok_invariants hP.1 hok
      exact ⟨I.1, I.2.2 hP.2⟩
    · intro s p e s₂ hP herr
      rw [relocatorStep_err_committed herr]
      exact hP.2
  · intro s p h hh hcat
    rcases classifierStep_spec reg s p with ⟨hskip, heq⟩ |
      ⟨h1, h2, h3, ⟨hnone, heq⟩ | ⟨h4, hh2, ⟨hcat2, heq⟩ | ⟨hfr, _⟩⟩⟩
    · exact Or.inl heq
    · rw [hh] at hnone
      exact Option.noConfusion hnone
    · exact Or.inr heq
    · rw [hh] at hh2
      injection hh2 with h5
      rw [h5] at hcat
      rw [hcat] at hfr
      exact Bool.noConfusion hfr
  · intro s p h hh hcat
    rcases relocatorStep_spec reg s p with ⟨hskip, heq⟩ |
      ⟨h1, h2, ⟨hnone, heq⟩ | ⟨h4, hh2, ⟨hcat2, heq⟩ | ⟨hfr, _⟩⟩⟩
    · exact Or.inl heq
    · rw [hh] at hnone
      exact Option.noConfusion hnone
    · exact Or.inr heq
    · rw [hh] at hh2
      injection hh2 with h5
      rw [h5] at hcat
      rw [hcat] at hfr
      exact Bool.noConfusion hfr

/-- A catalog already holding hash `"h0"`, and a root file with that same
content. -/
def catHashDup : Catalog :=
  { emptyCatalog with models := [⟨["models", "loras", "null", "z.safetensors"], "h0", none⟩] }

def sHashDup : S := ⟨⟨catHashDup, catHashDup⟩, [(["models", "y.safetensors"], "h0")], []⟩

/-- C6 witness: the invariant holds after a concrete run, and a concrete
duplicate-content root file is skipped by the relocator without error. -/
theorem claim6_witness :
    distinctHashes (stepOut (runFull regNotFound emptyCatalog fsRootNew)).db.committed
    ∧ (relocatorStep regNotFound sHashDup ["models", "y.safetensors"] = .ok sHashDup
       ∨ relocatorStep regNotFound sHashDup ["models", "y.safetensors"]
           = .ok (addTrace sHashDup (.hashed ["models", "y.safetensors"]))) :=
  ⟨(claim6_hash_unique regNotFound emptyCatalog fsRootNew
      (by unfold distinctHashes; decide)).1,
   (claim6_hash_unique regNotFound emptyCatalog fsRootNew
      (by unfold distinctHashes; decide)).2.2
     sHashDup ["models", "y.safetensors"] "h0" (by decide) (by decide)⟩

theorem rowsAt_eq_of_models {c c2 : Catalog} {p : MPath} (h : c2.models = c.models) :
    rowsAt c2 p = rowsAt c p := by
  unfold rowsAt
  rw [h]

theorem rowsAt_append_other {c c2 : Catalog} {p : MPath} (row : ModelsRow)
    (h : c2.models = c.models ++ [row]) (hne : ¬ row.path = p) :
    rowsAt c2 p = rowsAt c p := by
  unfold rowsAt
  rw [h, List.filter_append]
  have h2 : List.filter (fun r => decide (r.path = p)) [row] = [] := by
    simp [List.filter, hne]
  rw [h2, List.append_nil]

theorem pEvents_single_hashed_ne {p q : MPath} (hne : q ≠ p) :
    pEvents p [.hashed q] = [] := by
  have h2 : ¬ q = p := hne
  simp [pEvents, List.filter, eventTouches, h2]

/-- C10: a `.safetensors` file that is neither a direct child of the models
root nor placed with its first two parts in one of the four type buckets is
completely ignored by a full run: it keeps its path and content, it is never
hashed and never the source or target of a move, and the committed `models`
rows at its path are exactly those of the initial catalog. -/
theorem claim10_frame (reg : Registry) (c0 : Catalog) (fs0 : Fs) (p : MPath)
    (h : String)
    (hmem : (p, h) ∈ fs0)
    (_hsuf : pathSuffix (nameOf p) ∈ MODEL_EXTENSIONS)
    (hbp : ¬ p.take 2 ∈ MODEL_TYPE_PATHS)
    (hrp : ¬ p.dropLast = MODEL_PATH) :
    (p, h) ∈ (stepOut (runFull reg c0 fs0)).fs
    ∧ pEvents p (stepOut (runFull reg c0 fs0)).trace = []
    ∧ rowsAt (stepOut (runFull reg c0 fs0)).db.committed p = rowsAt c0 p := by
  refine runFull_out reg c0 fs0
    (fun s => inSync s ∧ (p, h) ∈ s.fs ∧ pEvents p s.trace = []
      ∧ rowsAt s.db.committed p = rowsAt c0 p)
    (fun s => (p, h) ∈ s.fs ∧ pEvents p s.trace = []
      ∧ rowsAt s.db.committed p = rowsAt c0 p)
    ?_ ?_ ?_ ?_ (fun s hP => hP.2) ⟨rfl, hmem, rfl, ?_⟩
  · -- classifier ok step
    intro s q s' hP hok
    obtain ⟨hsy, hm, hpe, hra⟩ := hP
    rcases classifierStep_spec reg s q with ⟨hskip, heq⟩ |
      ⟨h1, h2, h3, ⟨hnone, heq⟩ | ⟨h4, hh2, ⟨hcat2, heq⟩ | ⟨hfr, herr2 | hok2⟩⟩⟩
    · rw [heq] at hok
      injection hok with h5
      subst h5
      exact ⟨hsy, hm, hpe, hra⟩
    · rw [heq] at hok
      exact Except.noConfusion hok
    · rw [heq] at hok
      injection hok with h5
      subst h5
      have hqp : q ≠ p := fun he => hbp (he ▸ h2)
      refine ⟨hsy, hm, ?_, hra⟩
      have h7 : (addTrace s (Event.hashed q)).trace = s.trace ++ [Event.hashed q] := rfl
      rw [h7, pEvents_append, hpe, pEvents_single_hashed_ne hqp]
      rfl
    · obtain ⟨e, s₂, heq, _, _, _⟩ := herr2
      rw [heq] at hok
      exact Except.noConfusion hok
    · obtain ⟨s'', cm, heq, hfs, hsy2, hm2, htr⟩ := hok2
      rw [heq] at hok
      injection hok with h5
      subst h5
      have hqp : q ≠ p := fun he => hbp (he ▸ h2)
      have hpq : p ≠ q := fun he => hqp he.symm
      refine ⟨hsy2, hfs ▸ hm, ?_, ?_⟩
      · rw [traceExt_pEvents htr hpq]
        exact hpe
      · rcases hm2 with hm2 | hm2
        · refine (rowsAt_eq_of_models ?_).trans hra
          rw [hm2, hsy]
        · refine (rowsAt_append_other ⟨q, h4, cm⟩ ?_ ?_).trans hra
          · rw [hm2, hsy]
          · exact hqp
  · -- classifier aborting step
    intro s q e s₂ hP herr
    obtain ⟨hsy, hm, hpe, hra⟩ := hP
    rcases classifierStep_spec reg s q with ⟨hskip, heq⟩ |
      ⟨h1, h2, h3, ⟨hnone, heq⟩ | ⟨h4, hh2, ⟨hcat2, heq⟩ | ⟨hfr, herr2 | hok2⟩⟩⟩
    · rw [heq] at herr
      exact Except.noConfusion herr
    · rw [heq] at herr
      injection herr with h5
      injection h5 with h5a h5b
      subst h5b
      exact ⟨hm, hpe, hra⟩
    · rw [heq] at herr
      exact Except.noConfusion herr
    · obtain ⟨e2, s₃, heq, hfs, hcm, htr⟩ := herr2
      rw [heq] at herr
      injection herr with h5
      injection h5 with h5a h5b
      subst h5b
      have hqp : q ≠ p := fun he => hbp (he ▸ h2)
      have hpq : p ≠ q := fun he => hqp he.symm
      refine ⟨hfs ▸ hm, ?_, ?_⟩
      · rw [traceExt_pEvents htr hpq]
        exact hpe
      · exact (rowsAt_eq_of_models (by rw [hcm])).trans hra
    · obtain ⟨s'', cm, heq, _, _, _, _⟩ := hok2
      rw [heq] at herr
      exact Except.noConfusion herr
  · -- relocator ok step
    intro s q s' hP hok
    obtain ⟨hsy, hm, hpe, hra⟩ := hP
    rcases relocatorStep_spec reg s q with ⟨hskip, heq⟩ |
      ⟨h1, h2, ⟨hnone, heq⟩ | ⟨h4, hh2, ⟨hcat2, heq⟩ | ⟨hfr,
        herr2 | ⟨t, htgt, ⟨hin, s'', heq, hfs, hdb, htr⟩ |
          ⟨hnin, s'', heq, hfs, hsy2, hm2, htr⟩⟩⟩⟩⟩
    · rw [heq] at hok
      injection hok with h5
      subst h5
      exact ⟨hsy, hm, hpe, hra⟩
    · rw [heq] at hok
      exact Except.noConfusion hok
    · rw [heq] at hok
      injection hok with h5
      subst h5
      have hqp : q ≠ p := fun he => hrp (he ▸ h2)
      refine ⟨hsy, hm, ?_, hra⟩
      have h6 : (addTrace s (Event.hashed q)).trace = s.trace ++ [Event.hashed q] := rfl
      rw [h6, pEvents_append, hpe, pEvents_single_hashed_ne hqp]
      rfl
    · obtain ⟨e, s₂, heq, _, _, _⟩ := herr2
      rw [heq] at hok
      exact Except.noConfusion hok
    · rw [heq] at hok
      injection hok with h5
      subst h5
      have hqp : q ≠ p := fun he => hrp (he ▸ h2)
      have hpq : p ≠ q := fun he => hqp he.symm
      refine ⟨?_, hfs ▸ hm, ?_, ?_⟩
      · unfold inSync
        rw [hdb]
      · rw [traceExt_pEvents htr hpq]
        exact hpe
      · rw [hdb]
        exact hra
    · rw [heq] at hok
      injection hok with h5
      subst h5
      have hqp : q ≠ p := fun he => hrp (he ▸ h2)
      have hpq : p ≠ q := fun he => hqp he.symm
      have hpt : p ≠ t := fun he => hnin (he ▸ mem_fsPaths_of_mem hm)
      refine ⟨hsy2, ?_, ?_, ?_⟩
      · rw [hfs]
        exact mem_moveFile_of_ne q t hm hpq
      · rw [traceExtMove_pEvents htr hpq hpt]
        exact hpe
      · rcases hm2 with hm2 | ⟨cm, hm2⟩
        · refine (rowsAt_eq_of_models ?_).trans hra
          rw [hm2, hsy]
        · refine (rowsAt_append_other ⟨t, h4, some cm⟩ ?_ ?_).trans hra
          · rw [hm2, hsy]
          · exact fun he => hpt he.symm
  · -- relocator aborting step
    intro s q e s₂ hP herr
    obtain ⟨hsy, hm, hpe, hra⟩ := hP
    rcases relocatorStep_spec reg s q with ⟨hskip, heq⟩ |
      ⟨h1, h2, ⟨hnone, heq⟩ | ⟨h4, hh2, ⟨hcat2, heq⟩ | ⟨hfr,
        herr2 | ⟨t, htgt, ⟨hin, s'', heq, hfs, hdb, htr⟩ |
          ⟨hnin, s'', heq, hfs, hsy2, hm2, htr⟩⟩⟩⟩⟩
    · rw [heq] at herr
      exact Except.noConfusion herr
    · rw [heq] at herr
      injection herr with h5
      injection h5 with h5a h5b
      subst h5b
      exact ⟨hm, hpe, hra⟩
    · rw [heq] at herr
      exact Except.noConfusion herr
    · obtain ⟨e2, s₃, heq, hfs, hcm, htr⟩ := herr2
      rw [heq] at herr
      injection herr with h5
      injection h5 with h5a h5b
      subst h5b
      have hqp : q ≠ p := fun he => hrp (he ▸ h2)
      have hpq : p ≠ q := fun he => hqp he.symm
      refine ⟨hfs ▸ hm, ?_, ?_⟩
      · rw [traceExt_pEvents htr hpq]
        exact hpe
      · exact (rowsAt_eq_of_models (by rw [hcm])).trans hra
    · rw [heq] at herr
      exact Except.noConfusion herr
    · rw [heq] at herr
      exact Except.noConfusion herr
  · -- the initial catalog: startup does not touch the models table
    exact rowsAt_eq_of_models rfl

/-- C10 witness: the frame property at a concrete stray file
`models/other/stray.safetensors`. -/
theorem claim10_witness :
    (["models", "other", "stray.safetensors"], "h9")
        ∈ (stepOut (runFull regNotFound emptyCatalog
            [(["models", "other", "stray.safetensors"], "h9"),
             (["models", "x.safetensors"], "h1")])).fs
    ∧ pEvents ["models", "other", "stray.safetensors"]
        (stepOut (runFull regNotFound emptyCatalog
          [(["models", "other", "stray.safetensors"], "h9"),
           (["models", "x.safetensors"], "h1")])).trace = []
    ∧ rowsAt (stepOut (runFull regNotFound emptyCatalog
          [(["models", "other", "stray.safetensors"], "h9"),
           (["models", "x.safetensors"], "h1")])).db.committed
        ["models", "other", "stray.safetensors"]
      = rowsAt emptyCatalog ["models", "other", "stray.safetensors"] :=
  claim10_frame regNotFound emptyCatalog
    [(["models", "other", "stray.safetensors"], "h9"),
     (["models", "x.safetensors"], "h1")]
    ["models", "other", "stray.safetensors"] "h9"
    (by decide) (by decide) (by decide) (by decide)

theorem mem_moveFile_src {fs : Fs} {h : String} {src dst : MPath}
    (hmem : (src, h) ∈ moveFile fs src dst) : src = dst := by
  unfold moveFile at hmem
  rcases List.mem_map.mp hmem with ⟨e, he, heq⟩
  by_cases hes : e.1 = src
  · rw [if_pos hes] at heq
    have h2 := congrArg Prod.fst heq
    exact h2.symm
  · rw [if_neg hes] at heq
    rw [heq] at hes
    exact absurd rfl hes

theorem relocTarget_length {reg : Registry} {h nm : String} {t : MPath}
    (ht : relocTarget reg h nm = some t) (hnm : ¬ nm = "") : 3 ≤ t.length := by
  unfold relocTarget at ht
  by_cases h500 : (reg.byHash h).status = 500
  · rw [if_pos h500] at ht
    exact absurd ht (by simp)
  rw [if_neg h500] at ht
  by_cases h404 : (reg.byHash h).status = 404
  · rw [if_pos h404] at ht
    injection ht with ht2
    rw [← ht2]
    exact Nat.le_succ 3
  rw [if_neg h404] at ht
  cases hmid : (reg.byHash h).modelId with
  | none =>
    rw [hmid] at ht
    exact absurd ht (by simp)
  | some mid =>
    rw [hmid] at ht
    dsimp only at ht
    by_cases hbid : (reg.byId mid).status = 500
    · rw [if_pos hbid] at ht
      exact absurd ht (by simp)
    rw [if_neg hbid] at ht
    cases hmt : (reg.byHash h).modelType with
    | none =>
      rw [hmt] at ht
      exact absurd ht (by simp)
    | some mt =>
      rw [hmt] at ht
      dsimp only at ht
      cases hmb : (reg.byHash h).baseModel with
      | none =>
        rw [hmb] at ht
        exact absurd ht (by simp)
      | some mb =>
        rw [hmb] at ht
        dsimp only at ht
        cases hd : dictGet MODEL_TYPE_TO_DIRECTORY_MAP mt with
        | none =>
          rw [hd] at ht
          exact absurd ht (by simp)
        | some d =>
          rw [hd] at ht
          dsimp only at ht
          injection ht with ht2
          rw [← ht2]
          have hd2 : ¬ d = "" := dictGet_dirmap_ne_empty hd
          have hd3 : (d == "") = false := beq_eq_false_iff_ne.mpr hd2
          have hnm3 : (nm == "") = false := beq_eq_false_iff_ne.mpr hnm
          cases hmb3 : (mb == "") <;> cases hmc3 : (creatorOf (reg.byId mid) == "") <;>
            simp [pyPath, List.filter, hd3, hnm3, hmb3, hmc3]

theorem relocTarget_not_root {reg : Registry} {h nm : String} {t : MPath}
    (ht : relocTarget reg h nm = some t) (hnm : ¬ nm = "") :
    ¬ t.dropLast = MODEL_PATH := by
  intro he
  have h3 := relocTarget_length ht hnm
  have h4 : t.dropLast.length = t.length - 1 := List.length_dropLast t
  rw [he] at h4
  have h5 : MODEL_PATH.length = 1 := rfl
  rw [h5] at h4
  omega

/-- Every relocator-eligible file still on disk after the run is either
hash-cataloged or has its (deterministically re-computable) target already
occupied on disk. -/
def Stable (reg : Registry) (c : Catalog) (fs : Fs) : Prop :=
  ∀ p h, (p, h) ∈ fs →
    pathSuffix (nameOf p) ∈ MODEL_EXTENSIONS → p.dropLast = MODEL_PATH →
    hashCataloged c.models h = true
    ∨ ∃ t, relocTarget reg h (nameOf p) = some t ∧ t ∈ fsPaths fs

/-- A successful relocator step either keeps the disk or moves one root
child to a fresh target. -/
theorem relocatorStep_fs_shape {reg : Registry} {s s' : S} {q : MPath}
    (hok : relocatorStep reg s q = .ok s') :
    s'.fs = s.fs
    ∨ ∃ t2, q.dropLast = MODEL_PATH ∧ pathSuffix (nameOf q) ∈ MODEL_EXTENSIONS
        ∧ ¬ t2 ∈ fsPaths s.fs ∧ s'.fs = moveFile s.fs q t2 := by
  rcases relocatorStep_spec reg s q with ⟨hskip, heq⟩ |
    ⟨h1, h2, ⟨hnone, heq⟩ | ⟨h4, hh2, ⟨hcat2, heq⟩ | ⟨hfr,
      herr2 | ⟨t, htgt, ⟨hin, s'', heq, hfs, hdb, htr⟩ |
        ⟨hnin, s'', heq, hfs, hsy2, hm2, htr⟩⟩⟩⟩⟩
  · rw [heq] at hok; injection hok with h5; subst h5; exact Or.inl rfl
  · rw [heq] at hok; exact Except.noConfusion hok
  · rw [heq] at hok; injection hok with h5; subst h5; exact Or.inl rfl
  · obtain ⟨e, s₂, heq, _, _, _⟩ := herr2
    rw [heq] at hok; exact Except.noConfusion hok
  · rw [heq] at hok; injection hok with h5; subst h5; exact Or.inl hfs
  · rw [heq] at hok; injection hok with h5; subst h5
    exact Or.inr ⟨t, h2, h1, hnin, hfs⟩

theorem relocatorStep_nodup {reg : Registry} {s s' : S} {q : MPath}
    (hnd : (fsPaths s.fs).Nodup) (hok : relocatorStep reg s q = .ok s') :
    (fsPaths s'.fs).Nodup := by
  rcases relocatorStep_fs_shape hok with hfs | ⟨t2, _, _, hnin, hfs⟩
  · rw [hfs]; exact hnd
  · rw [hfs]; exact nodup_moveFile hnd hnin

/-- A classifier step preserves stability (it does not touch the disk and
only grows the committed catalog). -/
theorem classifierStep_stable {reg : Registry} {s s' : S} {q : MPath}
    (hsync : inSync s) (hok : classifierStep reg s q = .ok s')
    (hst : Stable reg s.db.committed s.fs) :
    Stable reg s'.db.committed s'.fs := by
  have I := classifierStep_ok_invariants hsync hok
  intro p h hmem hsuf hroot
  rw [I.1] at hmem
  rcases hst p h hmem hsuf hroot with hc | ⟨t, ht, htin⟩
  · exact Or.inl (hashCataloged_mono I.2.2.1 hc)
  · exact Or.inr ⟨t, ht, by rw [I.1]; exact htin⟩

theorem classifierStep_err_moves {reg : Registry} {s s₂ : S} {q : MPath} {e : RunErr}
    (herr : classifierStep reg s q = .error (e, s₂)) :
    movedEvents s₂.trace = movedEvents s.trace := by
  rcases classifierStep_spec reg s q with ⟨hskip, heq⟩ |
    ⟨h1, h2, h3, ⟨hnone, heq⟩ | ⟨h4, hh2, ⟨hcat2, heq⟩ | ⟨hfr, herr2 | hok2⟩⟩⟩
  · rw [heq] at herr; exact Except.noConfusion herr
  · rw [heq] at herr
    injection herr with h5
    injection h5 with h5a h5b
    subst h5b
    rfl
  · rw [heq] at herr; exact Except.noConfusion herr
  · obtain ⟨e2, s₃, heq, _, _, htr⟩ := herr2
    rw [heq] at herr
    injection herr with h5
    injection h5 with h5a h5b
    subst h5b
    exact traceExt_movedEvents htr
  · obtain ⟨s'', cm, heq, _, _, _, _⟩ := hok2
    rw [heq] at herr; exact Except.noConfusion herr

/-- Under stability (with the connection in sync) a relocator step performs
no move, and a successful one changes neither the disk nor stability. -/
theorem relocatorStep_stable_no_move {reg : Registry} {s : S} (q : MPath)
    (hsync : inSync s)
    (hst : Stable reg s.db.committed s.fs) :
    movedEvents (stepOut (relocatorStep reg s q)).trace = movedEvents s.trace
    ∧ (∀ s', relocatorStep reg s q = .ok s' →
        inSync s' ∧ s'.fs = s.fs ∧ Stable reg s'.db.committed s'.fs) := by
  rcases relocatorStep_spec reg s q with ⟨hskip, heq⟩ |
    ⟨h1, h2, ⟨hnone, heq⟩ | ⟨h4, hh2, ⟨hcat2, heq⟩ | ⟨hfr,
      herr2 | ⟨t, htgt, ⟨hin, s'', heq, hfs, hdb, htr⟩ |
        ⟨hnin, s'', heq, hfs, hsy2, hm2, htr⟩⟩⟩⟩⟩
  · rw [heq]
    refine ⟨rfl, fun s' hok => ?_⟩
    injection hok with h5
    subst h5
    exact ⟨hsync, rfl, hst⟩
  · rw [heq]
    refine ⟨rfl, fun s' hok => ?_⟩
    exact Except.noConfusion hok
  · rw [heq]
    constructor
    · show movedEvents (s.trace ++ [Event.hashed q]) = movedEvents s.trace
      rw [movedEvents_append, movedEvents_single_hashed, List.append_nil]
    · intro s' hok
      injection hok with h5
      subst h5
      refine ⟨hsync, rfl, ?_⟩
      intro p h hm hs hr
      exact hst p h hm hs hr
  · obtain ⟨e, s₂, heq, hfs, hcm, htr⟩ := herr2
    rw [heq]
    refine ⟨traceExt_movedEvents htr, fun s' hok => ?_⟩
    exact Except.noConfusion hok
  · rw [heq]
    refine ⟨traceExt_movedEvents htr, fun s' hok => ?_⟩
    injection hok with h5
    subst h5
    refine ⟨by unfold inSync; rw [hdb], hfs, ?_⟩
    intro p h hm hs hr
    rw [hfs] at hm
    rw [hdb]
    rcases hst p h hm hs hr with hc | ⟨t2, ht2, ht2in⟩
    · exact Or.inl hc
    · exact Or.inr ⟨t2, ht2, by rw [hfs]; exact ht2in⟩
  · -- a move under stability is impossible
    exfalso
    have hmemq : (q, h4) ∈ s.fs := mem_of_hashOf hh2
    rcases hst q h4 hmemq h1 h2 with hc | ⟨t2, ht2, ht2in⟩
    · rw [← hsync] at hc
      rw [hc] at hfr
      exact Bool.noConfusion hfr
    · rw [ht2] at htgt
      injection htgt with h5
      rw [h5] at ht2in
      exact hnin ht2in

/-- A successful relocator step establishes the stability disjunct for the
very file it processed. -/
theorem relocatorStep_establishes {reg : Registry} {s s' : S} {q : MPath} {h : String}
    (hnd : (fsPaths s.fs).Nodup)
    (hsync : inSync s)
    (hok : relocatorStep reg s q = .ok s')
    (hmem : (q, h) ∈ s'.fs)
    (hsuf : pathSuffix (nameOf q) ∈ MODEL_EXTENSIONS)
    (hroot : q.dropLast = MODEL_PATH) :
    hashCataloged s'.db.committed.models h = true
    ∨ ∃ t, relocTarget reg h (nameOf q) = some t ∧ t ∈ fsPaths s'.fs := by
  rcases relocatorStep_spec reg s q with ⟨hskip, heq⟩ |
    ⟨h1, h2, ⟨hnone, heq⟩ | ⟨h4, hh2, ⟨hcat2, heq⟩ | ⟨hfr,
      herr2 | ⟨t, htgt, ⟨hin, s'', heq, hfs, hdb, htr⟩ |
        ⟨hnin, s'', heq, hfs, hsy2, hm2, htr⟩⟩⟩⟩⟩
  · rcases hskip with hA | hB
    · exact absurd hsuf hA
    · exact absurd hroot hB
  · rw [heq] at hok
    exact Except.noConfusion hok
  · rw [heq] at hok
    injection hok with h5
    subst h5
    left
    have hmem2 : (q, h) ∈ s.fs := hmem
    have h6 := hashOf_eq_of_mem hnd hmem2
    rw [hh2] at h6
    injection h6 with h7
    rw [← h7]
    show hashCataloged s.db.committed.models h4 = true
    rw [← hsync]
    exact hcat2
  · obtain ⟨e, s₂, heq, _, _, _⟩ := herr2
    rw [heq] at hok
    exact Except.noConfusion hok
  · rw [heq] at hok
    injection hok with h5
    subst h5
    right
    have hmem2 : (q, h) ∈ s.fs := by rw [← hfs]; exact hmem
    have h6 := hashOf_eq_of_mem hnd hmem2
    rw [hh2] at h6
    injection h6 with h7
    refine ⟨t, by rw [← h7]; exact htgt, ?_⟩
    rw [hfs]
    exact hin
  · exfalso
    rw [heq] at hok
    injection hok with h5
    subst h5
    rw [hfs] at hmem
    have hqt := mem_moveFile_src hmem
    have hnm : ¬ nameOf q = "" := nameOf_ne_empty h1
    exact relocTarget_not_root htgt hnm (hqt ▸ hroot)

/-- A file with a root path present after a successful relocator step was
already there before it (the step only creates non-root paths). -/
theorem relocatorStep_root_entry_back {reg : Registry} {s s' : S} {q qq : MPath}
    {h : String}
    (hok : relocatorStep reg s q = .ok s')
    (hmem : (qq, h) ∈ s'.fs)
    (hqroot : qq.dropLast = MODEL_PATH) : (qq, h) ∈ s.fs := by
  rcases relocatorStep_spec reg s q with ⟨hskip, heq⟩ |
    ⟨h1, h2, ⟨hnone, heq⟩ | ⟨h4, hh2, ⟨hcat2, heq⟩ | ⟨hfr,
      herr2 | ⟨t, htgt, ⟨hin, s'', heq, hfs, hdb, htr⟩ |
        ⟨hnin, s'', heq, hfs, hsy2, hm2, htr⟩⟩⟩⟩⟩
  · rw [heq] at hok; injection hok with h5; subst h5; exact hmem
  · rw [heq] at hok; exact Except.noConfusion hok
  · rw [heq] at hok; injection hok with h5; subst h5; exact hmem
  · obtain ⟨e, s₂, heq, _, _, _⟩ := herr2
    rw [heq] at hok; exact Except.noConfusion hok
  · rw [heq] at hok; injection hok with h5; subst h5
    rw [hfs] at hmem; exact hmem
  · rw [heq] at hok; injection hok with h5; subst h5
    rw [hfs] at hmem
    rcases mem_moveFile_back hmem with hback | hqt
    · exact hback
    · exfalso
      have hnm : ¬ nameOf q = "" := nameOf_ne_empty h1
      exact relocTarget_not_root htgt hnm (hqt ▸ hqroot)

/-- The stability disjunct for a fixed file survives any successful
relocator step. -/
theorem relocatorStep_preserves_P {reg : Registry} {s s' : S} {q qq : MPath}
    {h : String}
    (hsync : inSync s)
    (hok : relocatorStep reg s q = .ok s')
    (hsufq : pathSuffix (nameOf qq) ∈ MODEL_EXTENSIONS)
    (hP : hashCataloged s.db.committed.models h = true
      ∨ ∃ t, relocTarget reg h (nameOf qq) = some t ∧ t ∈ fsPaths s.fs) :
    hashCataloged s'.db.committed.models h = true
    ∨ ∃ t, relocTarget reg h (nameOf qq) = some t ∧ t ∈ fsPaths s'.fs := by
  have I := relocatorStep_ok_invariants hsync hok
  rcases hP with hc | ⟨t, ht, htin⟩
  · exact Or.inl (hashCataloged_mono I.2.1 hc)
  · refine Or.inr ⟨t, ht, ?_⟩
    rcases relocatorStep_fs_shape hok with hfs | ⟨t2, hq2, hq1, hnin, hfs⟩
    · rw [hfs]; exact htin
    · rw [hfs]
      have hnm : ¬ nameOf qq = "" := nameOf_ne_empty hsufq
      have htq : t ≠ q := by
        intro he
        exact relocTarget_not_root ht hnm (he ▸ hq2)
      exact mem_fsPaths_moveFile q t2 htin htq

/-- The stability disjunct for a fixed file survives a whole relocator
pass. -/
theorem runList_relocator_preserves_P (reg : Registry) (qq : MPath) (h : String)
    (hsufq : pathSuffix (nameOf qq) ∈ MODEL_EXTENSIONS) :
    ∀ (ps : List MPath) (s s' : S), inSync s →
      runList (relocatorStep reg) ps s = .ok s' →
      (hashCataloged s.db.committed.models h = true
        ∨ ∃ t, relocTarget reg h (nameOf qq) = some t ∧ t ∈ fsPaths s.fs) →
      (hashCataloged s'.db.committed.models h = true
        ∨ ∃ t, relocTarget reg h (nameOf qq) = some t ∧ t ∈ fsPaths s'.fs) := by
  intro ps
  induction ps with
  | nil =>
    intro s s' hsync hrun hP
    simp only [runList] at hrun
    cases hrun
    exact hP
  | cons r ps ih =>
    intro s s' hsync hrun hP
    simp only [runList] at hrun
    cases hstep : relocatorStep reg s r with
    | error e => rw [hstep] at hrun; exact Except.noConfusion hrun
    | ok s1 =>
      rw [hstep] at hrun
      exact ih s1 s' (relocatorStep_ok_invariants hsync hstep).1 hrun
        (relocatorStep_preserves_P hsync hstep hsufq hP)

/-- After a successful relocator pass, every surviving relocator-eligible
file is either stabilised or was never visited by the pass. -/
theorem runList_relocator_establishes (reg : Registry) :
    ∀ (ps : List MPath) (s s' : S),
      (fsPaths s.fs).Nodup → inSync s →
      runList (relocatorStep reg) ps s = .ok s' →
      ∀ q h, (q, h) ∈ s'.fs →
        pathSuffix (nameOf q) ∈ MODEL_EXTENSIONS → q.dropLast = MODEL_PATH →
        (hashCataloged s'.db.committed.models h = true
          ∨ ∃ t, relocTarget reg h (nameOf q) = some t ∧ t ∈ fsPaths s'.fs)
        ∨ ((q, h) ∈ s.fs ∧ ¬ q ∈ ps) := by
  intro ps
  induction ps with
  | nil =>
    intro s s' hnd hsync hrun q h hmem hsuf hroot
    simp only [runList] at hrun
    cases hrun
    exact Or.inr ⟨hmem, by simp⟩
  | cons r ps ih =>
    intro s s' hnd hsync hrun q h hmem hsuf hroot
    simp only [runList] at hrun
    cases hstep : relocatorStep reg s r with
    | error e => rw [hstep] at hrun; exact Except.noConfusion hrun
    | ok s1 =>
      rw [hstep] at hrun
      have hnd1 := relocatorStep_nodup hnd hstep
      have hsy1 := (relocatorStep_ok_invariants hsync hstep).1
      rcases ih s1 s' hnd1 hsy1 hrun q h hmem hsuf hroot with hP | ⟨hmem1, hnotin⟩
      · exact Or.inl hP
      · by_cases hqr : q = r
        · subst hqr
          exact Or.inl (runList_relocator_preserves_P reg q h hsuf ps s1 s' hsy1 hrun
            (relocatorStep_establishes hnd hsync hstep hmem1 hsuf hroot))
        · refine Or.inr ⟨relocatorStep_root_entry_back hstep hmem1 hroot, ?_⟩
          intro hmem3
          rcases List.mem_cons.mp hmem3 with h5 | h5
          · exact hqr h5
          · exact hnotin h5

/-- A successful run leaves the catalog in sync and the disk stable: the
relocator pass stabilises every file it visits, its snapshot covers the
whole disk, and the intervening moves only create already-stable
non-root paths. -/
theorem run1_establishes_Stable {reg : Registry} {c0 : Catalog} {fs0 : Fs} {s1 : S}
    (hnd : (fsPaths fs0).Nodup)
    (hok : runFull reg c0 fs0 = .ok s1) :
    inSync s1 ∧ Stable reg s1.db.committed s1.fs := by
  rw [runFull_eq] at hok
  cases hcl : runList (classifierStep reg) (fsPaths (startS c0 fs0).fs) (startS c0 fs0) with
  | error e => rw [hcl] at hok; exact Except.noConfusion hok
  | ok sA =>
    rw [hcl] at hok
    have hA : inSync sA ∧ sA.fs = fs0 :=
      runList_ok_inv (classifierStep reg) (fun s => inSync s ∧ s.fs = fs0)
        (fun s p s' hP hstep =>
          ⟨(classifierStep_ok_invariants hP.1 hstep).2.1,
            ((classifierStep_ok_invariants hP.1 hstep).1).trans hP.2⟩)
        (fsPaths (startS c0 fs0).fs) (startS c0 fs0) sA ⟨rfl, rfl⟩ hcl
    have hndA : (fsPaths sA.fs).Nodup := by rw [hA.2]; exact hnd
    constructor
    · exact runList_ok_inv (relocatorStep reg) inSync
        (fun s p s' hP hstep => (relocatorStep_ok_invariants hP hstep).1)
        (fsPaths sA.fs) sA s1 hA.1 hok
    · intro q h hmem hsuf hroot
      rcases runList_relocator_establishes reg (fsPaths sA.fs) sA s1 hndA hA.1 hok
          q h hmem hsuf hroot with hP | ⟨hmemA, hnotin⟩
      · exact hP
      · exact absurd (mem_fsPaths_of_mem hmemA) hnotin

/-- C3 counterexample: one never-seen root file, registry answers 404.  Both
runs succeed; the first run moves the file to `models/loras/null/` and
commits an empty `models` table, the second run's classifier then inserts a
row for the parked file - so the catalog after the second run differs from
the catalog after the first run. -/
theorem claim3_counterexample :
    isOkResult (runFull regNotFound emptyCatalog fsRootNew) = true
    ∧ (stepOut (runFull regNotFound emptyCatalog fsRootNew)).db.committed.models = []
    ∧ isOkResult (runFull regNotFound
        (stepOut (runFull regNotFound emptyCatalog fsRootNew)).db.committed
        (stepOut (runFull regNotFound emptyCatalog fsRootNew)).fs) = true
    ∧ (stepOut (runFull regNotFound
        (stepOut (runFull regNotFound emptyCatalog fsRootNew)).db.committed
        (stepOut (runFull regNotFound emptyCatalog fsRootNew)).fs)).db.committed.models
      = [⟨["models", "loras", "null", "x.safetensors"], "h1", none⟩]
    ∧ ¬ (stepOut (runFull regNotFound
        (stepOut (runFull regNotFound emptyCatalog fsRootNew)).db.committed
        (stepOut (runFull regNotFound emptyCatalog fsRootNew)).fs)).db.committed
      = (stepOut (runFull regNotFound emptyCatalog fsRootNew)).db.committed := by
  decide

/-- C3 (amended): after a successful first run over a disk whose entries
have pairwise distinct paths, a second run over the resulting catalog and
directory tree performs zero filesystem moves (its catalog, however, may
differ - see the counterexample: null-bucket files get cataloged only on
the second run). -/
theorem claim3_second_run_no_moves (reg : Registry) (c0 : Catalog) (fs0 : Fs) (s1 : S)
    (hnd : (fsPaths fs0).Nodup)
    (hrun1 : runFull reg c0 fs0 = .ok s1) :
    movedEvents (stepOut (runFull reg s1.db.committed s1.fs)).trace = [] := by
  obtain ⟨hsy1, hst1⟩ := run1_establishes_Stable hnd hrun1
  refine runFull_out reg s1.db.committed s1.fs
    (fun s => inSync s ∧ Stable reg s.db.committed s.fs ∧ movedEvents s.trace = [])
    (fun s => movedEvents s.trace = [])
    ?_ ?_ ?_ ?_ (fun s hP => hP.2.2) ?_
  · intro s p s' hP hstep
    have I := classifierStep_ok_invariants hP.1 hstep
    exact ⟨I.2.1, classifierStep_stable hP.1 hstep hP.2.1, I.2.2.2.2.trans hP.2.2⟩
  · intro s p e s₂ hP hstep
    rw [classifierStep_err_moves hstep]
    exact hP.2.2
  · intro s p s' hP hstep
    have K := relocatorStep_stable_no_move p hP.1 hP.2.1
    obtain ⟨hsy, hfs, hstb⟩ := K.2 s' hstep
    refine ⟨hsy, hstb, ?_⟩
    have h2 := K.1
    rw [hstep] at h2
    exact h2.trans hP.2.2
  · intro s p e s₂ hP hstep
    have K := relocatorStep_stable_no_move p hP.1 hP.2.1
    have h2 := K.1
    rw [hstep] at h2
    exact h2.trans hP.2.2
  · refine ⟨rfl, ?_, rfl⟩
    intro q h hm hs hr
    exact hst1 q h hm hs hr

theorem claim3_witness :
    movedEvents (stepOut (runFull regNotFound
      (stepOut (runFull regNotFound emptyCatalog fsRootNew)).db.committed
      (stepOut (runFull regNotFound emptyCatalog fsRootNew)).fs)).trace = [] :=
  claim3_second_run_no_moves regNotFound emptyCatalog fsRootNew
    (stepOut (runFull regNotFound emptyCatalog fsRootNew))
    (by decide) (by decide)

end Claims

end ModelOrganizer
